import Mathlib

/-!
# Verification of the `ThreadSafeCounter` gate-synchronized counter

Shallow embedding of `src/Portfolio/Module7/PortfolioMod7.cpp`.

The program runs two worker threads over one shared coordination object:

* `countUp` (lines 74-123): logs a start line, builds the string of the
  values `0 .. kMaxCount` in a local buffer, then — under `state_mutex_` —
  sets `up_complete_ = true`, releases the lock, calls `cv_.notify_one()`,
  and only afterwards prints its completion log line and the single
  batched `UP: ...` output line.
* `countDown` (lines 132-180): logs a waiting line, then performs
  `cv_.wait(state_lock, [this]{ return up_complete_; })` — acquire the
  mutex, check the predicate, block (releasing the mutex) while it is
  false, re-acquire and re-check on every wakeup — and once past the
  gate logs a line, builds the values `kMaxCount .. 0` in a local buffer
  and prints the single batched `DOWN: ...` output line.

Each worker body is embedded as a list of atomic instructions; an atomic
instruction is exactly a region of the source that executes under one
mutex (one output statement under `print_mutex_`, the flag write under
`state_mutex_`, one predicate evaluation inside `cv_.wait` under
`state_mutex_`) or touches only thread-local data.  A configuration
carries the two program counters, the shared flag `up_complete_`, the
owner of `state_mutex_`, whether the down worker is blocked inside
`cv_.wait`, the two local string buffers (as value lists) and the trace
of emitted output lines.  A run is driven by an arbitrary scheduler: a
list of choices, each picking a thread to perform its next enabled
atomic step, or delivering a spurious wakeup to a blocked waiter.

The `catch` handlers (lines 115-122 and 172-179) are embedded by the
fail-variant programs `countUpProgFail k` / `countDownProgFail j`: the
worker executes the first `k` instructions of its body, the exception
unwinds (running the `scoped_lock` / `unique_lock` destructor, which
releases `state_mutex_` when it is held at that point), and the handler
prints one error line and returns.
-/

namespace PortfolioMod7

/-- The constant `kMaxCount` of `ThreadSafeCounter` (line 48). -/
def kMaxCount : Int := 20

/-- The values appended to `output_buffer` by the `countUp` loop
`for (int i = 0; i <= kMaxCount; ++i)` (lines 89-94), starting at `i`.
The first argument is fuel bounding the remaining iterations; the loop
guard `i <= kMaxCount` is the source's. -/
def countUpValuesAux : Nat → Int → List Int
  | 0, _ => []
  | n + 1, i => if i ≤ kMaxCount then i :: countUpValuesAux n (i + 1) else []

/-- The full value sequence built by `countUp`'s loop (starts at `i = 0`;
21 iterations of fuel suffice since the guard stops at `i = 21`). -/
def countUpValues : List Int := countUpValuesAux 22 0

/-- The values appended to `output_buffer` by the `countDown` loop
`for (int i = kMaxCount; i >= 0; --i)` (lines 159-164), indexed by the
current value of `i` (which stays within `0 .. kMaxCount`, so a `Nat`
index faithfully mirrors the `int` counter). -/
def countDownValuesFrom : Nat → List Int
  | 0 => [(0 : Int)]
  | n + 1 => ((n : Int) + 1) :: countDownValuesFrom n

/-- The full value sequence built by `countDown`'s loop (starts at
`i = kMaxCount = 20`). -/
def countDownValues : List Int := countDownValuesFrom 20

/-- The two worker threads (`count_up_thread` and `count_down_thread`,
lines 222-223). -/
inductive Tag
  | up
  | down
deriving DecidableEq

/-- One output line, keyed by which `std::cout`/`std::cerr` statement of
the source emits it.  Every line printed by a worker has the form
`[thread_name] text`; the trace stores the tag together with the line. -/
inductive Line
  | startingUp      -- "Starting count up task"            (line 81)
  | upCompleted     -- "Count up completed, gate released" (line 106)
  | upValues (vs : List Int)   -- "UP:   0 1 ... 20"       (line 112)
  | downWaiting     -- "Count down task waiting on gate..."(line 139)
  | gateOpened      -- "Gate opened, starting count down"  (line 151)
  | downValues (vs : List Int) -- "DOWN: 20 19 ... 0"      (line 169)
  | upFailed        -- countUp catch handler   (lines 118/121)
  | downFailed      -- countDown catch handler (lines 175/178)
deriving DecidableEq

/-- Atomic instructions of the embedded worker bodies. -/
inductive Instr
  | printLine (l : Line)  -- one output statement under `print_mutex_`
  | buildU                -- countUp's local buffer-building loop (89-94)
  | buildD                -- countDown's local buffer-building loop (159-164)
  | lockS                 -- acquire `state_mutex_`
  | unlockS               -- release `state_mutex_`
  | setFlag               -- `up_complete_ = true` (line 99, lock held)
  | notifyOne             -- `cv_.notify_one()` (line 101)
  | checkGate             -- one evaluation of the wait predicate
                          -- `up_complete_` inside `cv_.wait` (line 145),
                          -- performed with `state_mutex_` held
  | emitU                 -- print the batched UP line (line 112)
  | emitD                 -- print the batched DOWN line (line 169)
deriving DecidableEq

/-- A configuration of the two-thread system. -/
structure Config where
  upPc : Nat              -- next instruction of the up worker
  downPc : Nat            -- next instruction of the down worker
  flag : Bool             -- `up_complete_`
  holder : Option Tag     -- current owner of `state_mutex_`
  blocked : Bool          -- down worker asleep inside `cv_.wait`
  upBuf : List Int        -- countUp's `output_buffer` contents
  downBuf : List Int      -- countDown's `output_buffer` contents
  trace : List (Tag × Line)  -- emitted output lines, in order
deriving DecidableEq

/-- Scheduler choices: run a step of one worker, or deliver a spurious
wakeup to the down worker while it is blocked in `cv_.wait`. -/
inductive Choice
  | up
  | down
  | spur
deriving DecidableEq

/-- Effect of the up worker executing instruction `i`.  `none` means the
instruction cannot fire (the mutex is held by the other thread) or never
occurs in an up-worker body. -/
def stepUp (c : Config) (i : Instr) : Option Config :=
  match i with
  | .printLine l =>
      some { c with upPc := c.upPc + 1, trace := c.trace ++ [(Tag.up, l)] }
  | .buildU =>
      some { c with upPc := c.upPc + 1, upBuf := countUpValues }
  | .lockS =>
      match c.holder with
      | none => some { c with upPc := c.upPc + 1, holder := some Tag.up }
      | some _ => none
  | .unlockS =>
      some { c with upPc := c.upPc + 1, holder := none }
  | .setFlag =>
      some { c with upPc := c.upPc + 1, flag := true }
  | .notifyOne =>
      some { c with upPc := c.upPc + 1, blocked := false }
  | .emitU =>
      some { c with upPc := c.upPc + 1,
                    trace := c.trace ++ [(Tag.up, Line.upValues c.upBuf)] }
  | _ => none

/-- Effect of the down worker executing instruction `i`.  A failed
predicate check puts the worker to sleep releasing the mutex, and moves
its program counter back to the preceding `lockS`: on wakeup `cv_.wait`
re-acquires the mutex and re-evaluates the predicate. -/
def stepDown (c : Config) (i : Instr) : Option Config :=
  match i with
  | .printLine l =>
      some { c with downPc := c.downPc + 1, trace := c.trace ++ [(Tag.down, l)] }
  | .buildD =>
      some { c with downPc := c.downPc + 1, downBuf := countDownValues }
  | .lockS =>
      match c.holder with
      | none => some { c with downPc := c.downPc + 1, holder := some Tag.down }
      | some _ => none
  | .unlockS =>
      some { c with downPc := c.downPc + 1, holder := none }
  | .checkGate =>
      if c.flag then
        some { c with downPc := c.downPc + 1 }
      else
        some { c with downPc := c.downPc - 1, holder := none, blocked := true }
  | .emitD =>
      some { c with downPc := c.downPc + 1,
                    trace := c.trace ++ [(Tag.down, Line.downValues c.downBuf)] }
  | _ => none

/-- One scheduler-chosen atomic step of the system running programs
`pu` (up worker) and `pd` (down worker).  A blocked down worker takes no
steps until a `notifyOne` or a spurious wakeup clears `blocked`. -/
def step (pu pd : List Instr) (c : Config) (ch : Choice) : Option Config :=
  match ch with
  | .up =>
      match pu[c.upPc]? with
      | none => none
      | some i => stepUp c i
  | .down =>
      if c.blocked then none
      else
        match pd[c.downPc]? with
        | none => none
        | some i => stepDown c i
  | .spur =>
      if c.blocked then some { c with blocked := false } else none

/-- Run a schedule from a configuration; `none` when some choice was not
enabled at its point. -/
def run (pu pd : List Instr) (c : Config) : List Choice → Option Config
  | [] => some c
  | ch :: s =>
      match step pu pd c ch with
      | none => none
      | some c' => run pu pd c' s

/-- The initial configuration: `up_complete_ = false` (line 54), mutex
free, nobody blocked, buffers and output empty. -/
def initConfig : Config :=
  { upPc := 0, downPc := 0, flag := false, holder := none,
    blocked := false, upBuf := [], downBuf := [], trace := [] }

/-- The body of `countUp` (lines 74-123) as executed on a failure-free
run, in source order: start log; buffer-building loop; flag write under
`state_mutex_`; `notify_one`; completion log; batched UP output. -/
def countUpProg : List Instr :=
  [ .printLine .startingUp, .buildU, .lockS, .setFlag, .unlockS,
    .notifyOne, .printLine .upCompleted, .emitU ]

/-- The body of `countDown` (lines 132-180) as executed on a failure-free
run, in source order: waiting log; `cv_.wait` (acquire, predicate check
loop, with the lock released again at the end of the wait block); gate
log; buffer-building loop; batched DOWN output. -/
def countDownProg : List Instr :=
  [ .printLine .downWaiting, .lockS, .checkGate, .unlockS,
    .printLine .gateOpened, .buildD, .emitD ]

/-- The body of `countUp` when an exception is raised at its `k`-th atomic
instruction: the first `k` instructions run, stack unwinding releases
`state_mutex_` when it is held at that point (`k = 3` or `k = 4`, i.e.
between the executed `lockS` and the not-yet-executed `unlockS`), and
the catch handler (lines 115-122) prints one error line and returns. -/
def countUpProgFail (k : Nat) : List Instr :=
  countUpProg.take k ++ (if k = 3 ∨ k = 4 then [Instr.unlockS] else [])
    ++ [Instr.printLine Line.upFailed]

/-- The body of `countDown` when an exception is raised at its `j`-th atomic
instruction, analogously (`state_mutex_` is held exactly after the
executed `lockS` at index 1 and before the `unlockS` at index 3); the
catch handler (lines 172-179) prints one error line and returns. -/
def countDownProgFail (j : Nat) : List Instr :=
  countDownProg.take j ++ (if j = 2 ∨ j = 3 then [Instr.unlockS] else [])
    ++ [Instr.printLine Line.downFailed]

/-- Both workers have returned (`Done` in the spec's state machine). -/
def Done (pu pd : List Instr) (c : Config) : Prop :=
  pu.length ≤ c.upPc ∧ pd.length ≤ c.downPc

/-- No worker can take a step; spurious wakeups are disregarded (they
are not work by either worker). -/
def StuckNS (pu pd : List Instr) (c : Config) : Prop :=
  step pu pd c Choice.up = none ∧ step pu pd c Choice.down = none

/-- Recognizer for the batched UP output line. -/
def isUpValuesLine : Tag × Line → Bool
  | (Tag.up, Line.upValues _) => true
  | _ => false

/-- Recognizer for the batched DOWN output line. -/
def isDownValuesLine : Tag × Line → Bool
  | (Tag.down, Line.downValues _) => true
  | _ => false

/-- Instructions that perform an output action (take `print_mutex_` and
write to the stream). -/
def isOutputInstr : Instr → Bool
  | .printLine _ => true
  | .emitU => true
  | .emitD => true
  | _ => false

/-- Exhaustive description of the possible atomic steps: every successful
step is one of these fifteen transitions. -/
def StepSpec (pu pd : List Instr) (c : Config) (ch : Choice) (c' : Config) : Prop :=
  (ch = Choice.up ∧ (∃ l, pu[c.upPc]? = some (Instr.printLine l) ∧
      c' = { c with upPc := c.upPc + 1, trace := c.trace ++ [(Tag.up, l)] })) ∨
  (ch = Choice.up ∧ pu[c.upPc]? = some Instr.buildU ∧
      c' = { c with upPc := c.upPc + 1, upBuf := countUpValues }) ∨
  (ch = Choice.up ∧ pu[c.upPc]? = some Instr.lockS ∧ c.holder = none ∧
      c' = { c with upPc := c.upPc + 1, holder := some Tag.up }) ∨
  (ch = Choice.up ∧ pu[c.upPc]? = some Instr.unlockS ∧
      c' = { c with upPc := c.upPc + 1, holder := none }) ∨
  (ch = Choice.up ∧ pu[c.upPc]? = some Instr.setFlag ∧
      c' = { c with upPc := c.upPc + 1, flag := true }) ∨
  (ch = Choice.up ∧ pu[c.upPc]? = some Instr.notifyOne ∧
      c' = { c with upPc := c.upPc + 1, blocked := false }) ∨
  (ch = Choice.up ∧ pu[c.upPc]? = some Instr.emitU ∧
      c' = { c with upPc := c.upPc + 1,
                    trace := c.trace ++ [(Tag.up, Line.upValues c.upBuf)] }) ∨
  (ch = Choice.down ∧ c.blocked = false ∧ (∃ l, pd[c.downPc]? = some (Instr.printLine l) ∧
      c' = { c with downPc := c.downPc + 1, trace := c.trace ++ [(Tag.down, l)] })) ∨
  (ch = Choice.down ∧ c.blocked = false ∧ pd[c.downPc]? = some Instr.buildD ∧
      c' = { c with downPc := c.downPc + 1, downBuf := countDownValues }) ∨
  (ch = Choice.down ∧ c.blocked = false ∧ pd[c.downPc]? = some Instr.lockS ∧ c.holder = none ∧
      c' = { c with downPc := c.downPc + 1, holder := some Tag.down }) ∨
  (ch = Choice.down ∧ c.blocked = false ∧ pd[c.downPc]? = some Instr.unlockS ∧
      c' = { c with downPc := c.downPc + 1, holder := none }) ∨
  (ch = Choice.down ∧ c.blocked = false ∧ pd[c.downPc]? = some Instr.checkGate ∧ c.flag = true ∧
      c' = { c with downPc := c.downPc + 1 }) ∨
  (ch = Choice.down ∧ c.blocked = false ∧ pd[c.downPc]? = some Instr.checkGate ∧ c.flag = false ∧
      c' = { c with downPc := c.downPc - 1, holder := none, blocked := true }) ∨
  (ch = Choice.down ∧ c.blocked = false ∧ pd[c.downPc]? = some Instr.emitD ∧
      c' = { c with downPc := c.downPc + 1,
                    trace := c.trace ++ [(Tag.down, Line.downValues c.downBuf)] }) ∨
  (ch = Choice.spur ∧ c.blocked = true ∧ c' = { c with blocked := false })

/-- Structural facts about an embedded `countUp`-style body, shared by
the failure-free program and all its fail variants: `lockS` opens the
`scoped_lock` critical section of lines 97-100, whose only contents are
the flag write and the release (possibly inserted by unwinding), and no
down-worker-only instruction occurs. -/
def UpShape (pu : List Instr) : Prop :=
  (∀ pc < pu.length, pu[pc]? = some Instr.lockS →
      pu[pc + 1]? = some Instr.setFlag ∨ pu[pc + 1]? = some Instr.unlockS) ∧
  (∀ pc < pu.length, pu[pc]? = some Instr.setFlag →
      1 ≤ pc ∧ pu[pc - 1]? = some Instr.lockS ∧ pu[pc + 1]? = some Instr.unlockS) ∧
  (∀ pc < pu.length, pu[pc]? = some Instr.unlockS →
      1 ≤ pc ∧ (pu[pc - 1]? = some Instr.lockS ∨ pu[pc - 1]? = some Instr.setFlag)) ∧
  (Instr.checkGate ∉ pu ∧ Instr.buildD ∉ pu ∧ Instr.emitD ∉ pu)

/-- Structural facts about an embedded `countDown`-style body: `lockS`
opens the wait/re-acquire critical section, the predicate check is
surrounded by its acquire and the release, and no up-worker-only
instruction occurs. -/
def DownShape (pd : List Instr) : Prop :=
  (∀ pc < pd.length, pd[pc]? = some Instr.lockS →
      pd[pc + 1]? = some Instr.checkGate ∨ pd[pc + 1]? = some Instr.unlockS) ∧
  (∀ pc < pd.length, pd[pc]? = some Instr.checkGate →
      1 ≤ pc ∧ pd[pc - 1]? = some Instr.lockS ∧ pd[pc + 1]? = some Instr.unlockS) ∧
  (∀ pc < pd.length, pd[pc]? = some Instr.unlockS →
      1 ≤ pc ∧ (pd[pc - 1]? = some Instr.lockS ∨ pd[pc - 1]? = some Instr.checkGate)) ∧
  (Instr.setFlag ∉ pd ∧ Instr.notifyOne ∉ pd ∧ Instr.buildU ∉ pd ∧ Instr.emitU ∉ pd)

/-- Mutex/wait discipline invariant: a blocked waiter sits at its
re-acquire with the re-check pending; whoever holds `state_mutex_` is
inside its critical section; and a worker about to write the flag,
evaluate the wait predicate, or release the mutex actually holds it. -/
def Inv (pu pd : List Instr) (c : Config) : Prop :=
  (c.blocked = true → c.holder ≠ some Tag.down ∧
      pd[c.downPc]? = some Instr.lockS ∧ pd[c.downPc + 1]? = some Instr.checkGate) ∧
  (c.holder = some Tag.up →
      pu[c.upPc]? = some Instr.setFlag ∨ pu[c.upPc]? = some Instr.unlockS) ∧
  (c.holder = some Tag.down →
      pd[c.downPc]? = some Instr.checkGate ∨ pd[c.downPc]? = some Instr.unlockS) ∧
  (pu[c.upPc]? = some Instr.unlockS → c.holder = some Tag.up) ∧
  (pd[c.downPc]? = some Instr.unlockS → c.holder = some Tag.down) ∧
  (pu[c.upPc]? = some Instr.setFlag → c.holder = some Tag.up) ∧
  (pd[c.downPc]? = some Instr.checkGate → c.holder = some Tag.down)

/-- The `notify_one` that pairs with `setFlag` in the source: whenever
some fetchable `setFlag` is executed, a `notifyOne` is still to come. -/
def UpNotifyShape (pu : List Instr) : Prop :=
  ∀ pc < pu.length, pu[pc]? = some Instr.setFlag → Instr.notifyOne ∈ pu.drop (pc + 1)

/-- Termination measure: non-spurious steps strictly decrease it. -/
def stepMeasure (pu pd : List Instr) (c : Config) : Nat :=
  3 * (pu.length - c.upPc) + (pd.length - c.downPc) + (if c.blocked then 0 else 2)

/-- Trace/buffer invariant of the failure-free run: program counters in
range; a finished build loop leaves the full value sequence in the local
buffer; the batched UP/DOWN line appears exactly once, exactly after the
corresponding `emit` instruction has run, and always carries the full
value sequence; the down worker is past the gate only with the flag set;
and the flag is set only after the whole counting loop, the flag write
included, has run. -/
def TrInv (c : Config) : Prop :=
  c.upPc ≤ 8 ∧ c.downPc ≤ 7 ∧
  (2 ≤ c.upPc → c.upBuf = countUpValues) ∧
  (6 ≤ c.downPc → c.downBuf = countDownValues) ∧
  (c.trace.countP isUpValuesLine = if 8 ≤ c.upPc then 1 else 0) ∧
  (c.trace.countP isDownValuesLine = if 7 ≤ c.downPc then 1 else 0) ∧
  (∀ vs, (Tag.up, Line.upValues vs) ∈ c.trace → vs = countUpValues) ∧
  (∀ vs, (Tag.down, Line.downValues vs) ∈ c.trace → vs = countDownValues) ∧
  (3 ≤ c.downPc → c.flag = true) ∧
  (c.flag = true → 4 ≤ c.upPc)

/-- A complete schedule in which the up worker runs through its
`notify_one`, the down worker then runs to completion, and the up worker
prints its two remaining lines last. -/
def schedUpFirst : List Choice :=
  [Choice.up, Choice.up, Choice.up, Choice.up, Choice.up, Choice.up,
   Choice.down, Choice.down, Choice.down, Choice.down, Choice.down, Choice.down,
   Choice.down, Choice.up, Choice.up]

/-- A complete schedule in which the down worker blocks first, the up
worker runs to completion (waking it), and the down worker finishes. -/
def schedDownFirst : List Choice :=
  [Choice.down, Choice.down, Choice.down,
   Choice.up, Choice.up, Choice.up, Choice.up, Choice.up, Choice.up, Choice.up, Choice.up,
   Choice.down, Choice.down, Choice.down, Choice.down, Choice.down, Choice.down]

/-- The final configuration of `schedUpFirst`. -/
def cUpFirst : Config :=
  { upPc := 8, downPc := 7, flag := true, holder := none, blocked := false,
    upBuf := countUpValues, downBuf := countDownValues,
    trace := [(Tag.up, Line.startingUp), (Tag.down, Line.downWaiting),
      (Tag.down, Line.gateOpened), (Tag.down, Line.downValues countDownValues),
      (Tag.up, Line.upCompleted), (Tag.up, Line.upValues countUpValues)] }

/-- The final configuration of `schedDownFirst`. -/
def cDownFirst : Config :=
  { upPc := 8, downPc := 7, flag := true, holder := none, blocked := false,
    upBuf := countUpValues, downBuf := countDownValues,
    trace := [(Tag.down, Line.downWaiting), (Tag.up, Line.startingUp),
      (Tag.up, Line.upCompleted), (Tag.up, Line.upValues countUpValues),
      (Tag.down, Line.gateOpened), (Tag.down, Line.downValues countDownValues)] }

/-- The configuration after the up worker has executed its first three
instructions (start log, buffer build, mutex acquire). -/
def cUpLocked : Config :=
  { upPc := 3, downPc := 0, flag := false, holder := some Tag.up, blocked := false,
    upBuf := countUpValues, downBuf := [], trace := [(Tag.up, Line.startingUp)] }

/-- The configuration `cUpLocked` after the flag write. -/
def cUpFlagged : Config :=
  { upPc := 4, downPc := 0, flag := true, holder := some Tag.up, blocked := false,
    upBuf := countUpValues, downBuf := [], trace := [(Tag.up, Line.startingUp)] }

/-- A configuration with the down worker at its predicate check, holding
the state mutex, before the flag is set. -/
def cAtGate : Config :=
  { upPc := 0, downPc := 2, flag := false, holder := some Tag.down, blocked := false,
    upBuf := [], downBuf := [], trace := [] }

/-- The configuration `cAtGate` after the failed check: asleep inside `cv_.wait`. -/
def cBlocked : Config :=
  { upPc := 0, downPc := 1, flag := false, holder := none, blocked := true,
    upBuf := [], downBuf := [], trace := [] }

/-- The configuration after the up worker fails at its very first
instruction (handler line printed) and the down worker blocks. -/
def cUpFail0 : Config :=
  { upPc := 1, downPc := 1, flag := false, holder := none, blocked := true,
    upBuf := [], downBuf := [],
    trace := [(Tag.up, Line.upFailed), (Tag.down, Line.downWaiting)] }

/-- The configuration after the up worker of the `k = 1` fail variant
has printed its start log and its error line, and the down worker has
blocked on the gate. -/
def cUpFail1 : Config :=
  { upPc := 2, downPc := 1, flag := false, holder := none, blocked := true,
    upBuf := [], downBuf := [],
    trace := [(Tag.up, Line.startingUp), (Tag.up, Line.upFailed),
      (Tag.down, Line.downWaiting)] }

/-- The final configuration of the `k = 6` fail variant (up worker fails
right after `notify_one`) followed by a full down phase. -/
def cUpFail6 : Config :=
  { upPc := 7, downPc := 7, flag := true, holder := none, blocked := false,
    upBuf := countUpValues, downBuf := countDownValues,
    trace := [(Tag.up, Line.startingUp), (Tag.up, Line.upFailed),
      (Tag.down, Line.downWaiting), (Tag.down, Line.gateOpened),
      (Tag.down, Line.downValues countDownValues)] }

instance (pu : List Instr) : Decidable (UpShape pu) := by
  unfold UpShape
  infer_instance

instance (pd : List Instr) : Decidable (DownShape pd) := by
  unfold DownShape
  infer_instance

instance (pu : List Instr) : Decidable (UpNotifyShape pu) := by
  unfold UpNotifyShape
  infer_instance

instance (pu pd : List Instr) (c : Config) : Decidable (StuckNS pu pd c) := by
  unfold StuckNS
  infer_instance

instance (pu pd : List Instr) (c : Config) : Decidable (Done pu pd c) := by
  unfold Done
  infer_instance

theorem step_cases {pu pd : List Instr} {c : Config} {ch : Choice} {c' : Config}
    (h : step pu pd c ch = some c') : StepSpec pu pd c ch c' := by
  unfold StepSpec
  cases ch with
  | up =>
      simp only [step] at h
      rcases hf : pu[c.upPc]? with _ | i <;> rw [hf] at h
      · simp at h
      · cases i <;> simp only [stepUp] at h <;> try exact Option.noConfusion h
        case printLine l =>
          exact .inl ⟨rfl, l, rfl, (Option.some.inj h).symm⟩
        case buildU =>
          exact .inr (.inl ⟨rfl, rfl, (Option.some.inj h).symm⟩)
        case lockS =>
          rcases hh : c.holder with _ | t <;> rw [hh] at h
          · exact .inr (.inr (.inl ⟨rfl, rfl, rfl, (Option.some.inj h).symm⟩))
          · simp at h
        case unlockS =>
          exact .inr (.inr (.inr (.inl ⟨rfl, rfl, (Option.some.inj h).symm⟩)))
        case setFlag =>
          exact .inr (.inr (.inr (.inr (.inl ⟨rfl, rfl, (Option.some.inj h).symm⟩))))
        case notifyOne =>
          exact .inr (.inr (.inr (.inr (.inr (.inl ⟨rfl, rfl, (Option.some.inj h).symm⟩)))))
        case emitU =>
          exact .inr (.inr (.inr (.inr (.inr (.inr (.inl ⟨rfl, rfl, (Option.some.inj h).symm⟩))))))
  | down =>
      simp only [step] at h
      rcases hb : c.blocked with _ | _ <;> rw [hb] at h
      · simp only [if_neg Bool.false_ne_true, Bool.false_eq_true, if_false] at h
        rcases hf : pd[c.downPc]? with _ | i <;> rw [hf] at h
        · simp at h
        · cases i <;> simp only [stepDown] at h <;> (try rw [hb] at h) <;>
            try exact Option.noConfusion h
          case printLine l =>
            exact .inr (.inr (.inr (.inr (.inr (.inr (.inr (.inl ⟨rfl, rfl, l, rfl,
              (Option.some.inj h).symm⟩)))))))
          case buildD =>
            exact .inr (.inr (.inr (.inr (.inr (.inr (.inr (.inr (.inl ⟨rfl, rfl, rfl,
              (Option.some.inj h).symm⟩))))))))
          case lockS =>
            rcases hh : c.holder with _ | t <;> rw [hh] at h
            · exact .inr (.inr (.inr (.inr (.inr (.inr (.inr (.inr (.inr (.inl ⟨rfl, rfl, rfl, rfl,
                (Option.some.inj h).symm⟩)))))))))
            · simp at h
          case unlockS =>
            exact .inr (.inr (.inr (.inr (.inr (.inr (.inr (.inr (.inr (.inr (.inl ⟨rfl, rfl, rfl,
              (Option.some.inj h).symm⟩))))))))))
          case checkGate =>
            rcases hfl : c.flag with _ | _ <;> rw [hfl] at h <;>
              simp only [if_true, if_false, Bool.false_eq_true, Bool.true_eq_false] at h
            · exact .inr (.inr (.inr (.inr (.inr (.inr (.inr (.inr (.inr (.inr (.inr (.inr (.inl
                ⟨rfl, rfl, rfl, rfl, (Option.some.inj h).symm⟩))))))))))))
            · exact .inr (.inr (.inr (.inr (.inr (.inr (.inr (.inr (.inr (.inr (.inr (.inl
                ⟨rfl, rfl, rfl, rfl, (Option.some.inj h).symm⟩)))))))))))
          case emitD =>
            exact .inr (.inr (.inr (.inr (.inr (.inr (.inr (.inr (.inr (.inr (.inr (.inr (.inr (.inl
              ⟨rfl, rfl, rfl, (Option.some.inj h).symm⟩)))))))))))))
      · simp at h
  | spur =>
      simp only [step] at h
      rcases hb : c.blocked with _ | _ <;> rw [hb] at h
      · simp at h
      · exact .inr (.inr (.inr (.inr (.inr (.inr (.inr (.inr (.inr (.inr (.inr (.inr (.inr (.inr
          ⟨rfl, rfl, (Option.some.inj h).symm⟩)))))))))))))

/-- Any property preserved by every step holds in every configuration a
run reaches. -/
theorem run_inv {pu pd : List Instr} (P : Config → Prop)
    (hstep : ∀ c ch c', P c → step pu pd c ch = some c' → P c') :
    ∀ (s : List Choice) (c₀ c : Config), P c₀ → run pu pd c₀ s = some c → P c := by
  intro s
  induction s with
  | nil =>
      intro c₀ c h0 hr
      simp only [run] at hr
      exact (Option.some.inj hr) ▸ h0
  | cons ch s ih =>
      intro c₀ c h0 hr
      simp only [run] at hr
      rcases hs : step pu pd c₀ ch with _ | c₁ <;> rw [hs] at hr
      · simp at hr
      · exact ih c₁ c (hstep c₀ ch c₁ h0 hs) hr

/-- Two fetches at the same program counter agree. -/
theorem fetch_uniq {l : List Instr} {n : Nat} {a b : Instr}
    (h1 : l[n]? = some a) (h2 : l[n]? = some b) : a = b :=
  Option.some.inj (h1.symm.trans h2)

/-- A successful fetch is in bounds. -/
theorem fetch_lt {l : List Instr} {n : Nat} {a : Instr}
    (h : l[n]? = some a) : n < l.length :=
  (List.getElem?_eq_some.mp h).1

theorem inv_step {pu pd : List Instr} (hu : UpShape pu) (hd : DownShape pd)
    {c : Config} {ch : Choice} {c' : Config}
    (hinv : Inv pu pd c) (h : step pu pd c ch = some c') : Inv pu pd c' := by
  obtain ⟨huL, huS, huU, -⟩ := hu
  obtain ⟨hdL, hdC, hdU, -⟩ := hd
  obtain ⟨hB, hHU, hHD, hUU, hUD, hSU, hCD⟩ := hinv
  rcases step_cases h with
      ⟨-, l, hf, rfl⟩ | ⟨-, hf, rfl⟩ | ⟨-, hf, hh, rfl⟩ | ⟨-, hf, rfl⟩ | ⟨-, hf, rfl⟩ |
      ⟨-, hf, rfl⟩ | ⟨-, hf, rfl⟩ | ⟨-, hbl, l, hf, rfl⟩ | ⟨-, hbl, hf, rfl⟩ |
      ⟨-, hbl, hf, hh, rfl⟩ | ⟨-, hbl, hf, rfl⟩ | ⟨-, hbl, hf, hfl, rfl⟩ |
      ⟨-, hbl, hf, hfl, rfl⟩ | ⟨-, hbl, hf, rfl⟩ | ⟨-, hbl, rfl⟩
  -- up: printLine
  · refine ⟨fun hb => hB hb, fun hh => ?_, hHD, fun hfe => ?_, hUD, fun hfe => ?_, hCD⟩
    · rcases hHU hh with h2 | h2 <;> exact Instr.noConfusion (fetch_uniq hf h2)
    · have h2 := (huU (c.upPc + 1) (fetch_lt hfe) hfe).2
      rw [Nat.add_sub_cancel] at h2
      rcases h2 with h2 | h2 <;> exact Instr.noConfusion (fetch_uniq hf h2)
    · have h2 := (huS (c.upPc + 1) (fetch_lt hfe) hfe).2.1
      rw [Nat.add_sub_cancel] at h2
      exact Instr.noConfusion (fetch_uniq hf h2)
  -- up: buildU
  · refine ⟨fun hb => hB hb, fun hh => ?_, hHD, fun hfe => ?_, hUD, fun hfe => ?_, hCD⟩
    · rcases hHU hh with h2 | h2 <;> exact Instr.noConfusion (fetch_uniq hf h2)
    · have h2 := (huU (c.upPc + 1) (fetch_lt hfe) hfe).2
      rw [Nat.add_sub_cancel] at h2
      rcases h2 with h2 | h2 <;> exact Instr.noConfusion (fetch_uniq hf h2)
    · have h2 := (huS (c.upPc + 1) (fetch_lt hfe) hfe).2.1
      rw [Nat.add_sub_cancel] at h2
      exact Instr.noConfusion (fetch_uniq hf h2)
  -- up: lockS, mutex acquired
  · refine ⟨fun hb => ⟨by simp, (hB hb).2.1, (hB hb).2.2⟩,
      fun _ => huL c.upPc (fetch_lt hf) hf, fun hh2 => ?_,
      fun _ => rfl, fun hfe => ?_, fun _ => rfl, fun hfe => ?_⟩
    · exact absurd hh2 (by simp)
    · exact absurd (hh ▸ hUD hfe) (by simp)
    · exact absurd (hh ▸ hCD hfe) (by simp)
  -- up: unlockS, mutex released
  · have hup := hUU hf
    refine ⟨fun hb => ⟨by simp, (hB hb).2.1, (hB hb).2.2⟩,
      fun hh2 => absurd hh2 (by simp), fun hh2 => absurd hh2 (by simp),
      fun hfe => ?_, fun hfe => ?_, fun hfe => ?_, fun hfe => ?_⟩
    · have h2 := (huU (c.upPc + 1) (fetch_lt hfe) hfe).2
      rw [Nat.add_sub_cancel] at h2
      rcases h2 with h2 | h2 <;> exact Instr.noConfusion (fetch_uniq hf h2)
    · exact absurd (hup.symm.trans (hUD hfe)) (by simp)
    · have h2 := (huS (c.upPc + 1) (fetch_lt hfe) hfe).2.1
      rw [Nat.add_sub_cancel] at h2
      exact Instr.noConfusion (fetch_uniq hf h2)
    · exact absurd (hup.symm.trans (hCD hfe)) (by simp)
  -- up: setFlag
  · have hup := hSU hf
    refine ⟨fun hb => ⟨(hB hb).1, (hB hb).2.1, (hB hb).2.2⟩,
      fun _ => Or.inr ?_, fun hh2 => ?_,
      fun _ => hup, fun hfe => ?_, fun hfe => ?_, fun hfe => ?_⟩
    · exact (huS c.upPc (fetch_lt hf) hf).2.2
    · exact absurd (hup.symm.trans hh2) (by simp)
    · exact absurd (hup.symm.trans (hUD hfe)) (by simp)
    · exact Instr.noConfusion (fetch_uniq (huS c.upPc (fetch_lt hf) hf).2.2 hfe)
    · exact absurd (hup.symm.trans (hCD hfe)) (by simp)
  -- up: notifyOne
  · refine ⟨fun hb => absurd hb (by simp), fun hh => ?_, hHD,
      fun hfe => ?_, hUD, fun hfe => ?_, hCD⟩
    · rcases hHU hh with h2 | h2 <;> exact Instr.noConfusion (fetch_uniq hf h2)
    · have h2 := (huU (c.upPc + 1) (fetch_lt hfe) hfe).2
      rw [Nat.add_sub_cancel] at h2
      rcases h2 with h2 | h2 <;> exact Instr.noConfusion (fetch_uniq hf h2)
    · have h2 := (huS (c.upPc + 1) (fetch_lt hfe) hfe).2.1
      rw [Nat.add_sub_cancel] at h2
      exact Instr.noConfusion (fetch_uniq hf h2)
  -- up: emitU
  · refine ⟨fun hb => hB hb, fun hh => ?_, hHD, fun hfe => ?_, hUD, fun hfe => ?_, hCD⟩
    · rcases hHU hh with h2 | h2 <;> exact Instr.noConfusion (fetch_uniq hf h2)
    · have h2 := (huU (c.upPc + 1) (fetch_lt hfe) hfe).2
      rw [Nat.add_sub_cancel] at h2
      rcases h2 with h2 | h2 <;> exact Instr.noConfusion (fetch_uniq hf h2)
    · have h2 := (huS (c.upPc + 1) (fetch_lt hfe) hfe).2.1
      rw [Nat.add_sub_cancel] at h2
      exact Instr.noConfusion (fetch_uniq hf h2)
  -- down: printLine
  · refine ⟨fun hb => absurd (hbl ▸ hb) (by simp), hHU, fun hh => ?_,
      hUU, fun hfe => ?_, hSU, fun hfe => ?_⟩
    · rcases hHD hh with h2 | h2 <;> exact Instr.noConfusion (fetch_uniq hf h2)
    · have h2 := (hdU (c.downPc + 1) (fetch_lt hfe) hfe).2
      rw [Nat.add_sub_cancel] at h2
      rcases h2 with h2 | h2 <;> exact Instr.noConfusion (fetch_uniq hf h2)
    · have h2 := (hdC (c.downPc + 1) (fetch_lt hfe) hfe).2.1
      rw [Nat.add_sub_cancel] at h2
      exact Instr.noConfusion (fetch_uniq hf h2)
  -- down: buildD
  · refine ⟨fun hb => absurd (hbl ▸ hb) (by simp), hHU, fun hh => ?_,
      hUU, fun hfe => ?_, hSU, fun hfe => ?_⟩
    · rcases hHD hh with h2 | h2 <;> exact Instr.noConfusion (fetch_uniq hf h2)
    · have h2 := (hdU (c.downPc + 1) (fetch_lt hfe) hfe).2
      rw [Nat.add_sub_cancel] at h2
      rcases h2 with h2 | h2 <;> exact Instr.noConfusion (fetch_uniq hf h2)
    · have h2 := (hdC (c.downPc + 1) (fetch_lt hfe) hfe).2.1
      rw [Nat.add_sub_cancel] at h2
      exact Instr.noConfusion (fetch_uniq hf h2)
  -- down: lockS, mutex acquired
  · refine ⟨fun hb => absurd (hbl ▸ hb) (by simp), fun hh2 => ?_,
      fun _ => hdL c.downPc (fetch_lt hf) hf,
      fun hfe => ?_, fun _ => rfl, fun hfe => ?_, fun _ => rfl⟩
    · exact absurd hh2 (by simp)
    · exact absurd (hh ▸ hUU hfe) (by simp)
    · exact absurd (hh ▸ hSU hfe) (by simp)
  -- down: unlockS
  · have hdn := hUD hf
    refine ⟨fun hb => absurd (hbl ▸ hb) (by simp),
      fun hh2 => absurd hh2 (by simp), fun hh2 => absurd hh2 (by simp),
      fun hfe => ?_, fun hfe => ?_, fun hfe => ?_, fun hfe => ?_⟩
    · exact absurd (hdn.symm.trans (hUU hfe)) (by simp)
    · have h2 := (hdU (c.downPc + 1) (fetch_lt hfe) hfe).2
      rw [Nat.add_sub_cancel] at h2
      rcases h2 with h2 | h2 <;> exact Instr.noConfusion (fetch_uniq hf h2)
    · exact absurd (hdn.symm.trans (hSU hfe)) (by simp)
    · have h2 := (hdC (c.downPc + 1) (fetch_lt hfe) hfe).2.1
      rw [Nat.add_sub_cancel] at h2
      exact Instr.noConfusion (fetch_uniq hf h2)
  -- down: checkGate, flag true — proceed past the wait
  · have hdn := hCD hf
    refine ⟨fun hb => absurd (hbl ▸ hb) (by simp),
      fun hh2 => absurd (hdn.symm.trans hh2) (by simp),
      fun _ => Or.inr (hdC c.downPc (fetch_lt hf) hf).2.2,
      fun hfe => ?_, fun _ => hdn, fun hfe => ?_, fun hfe => ?_⟩
    · exact absurd (hdn.symm.trans (hUU hfe)) (by simp)
    · exact absurd (hdn.symm.trans (hSU hfe)) (by simp)
    · have h2 := (hdC (c.downPc + 1) (fetch_lt hfe) hfe).2.1
      rw [Nat.add_sub_cancel] at h2
      exact Instr.noConfusion (fetch_uniq hf h2)
  -- down: checkGate, flag false — block, releasing the mutex
  · have hdn := hCD hf
    have hctx := hdC c.downPc (fetch_lt hf) hf
    refine ⟨fun _ => ⟨by simp, hctx.2.1, ?_⟩,
      fun hh2 => absurd hh2 (by simp), fun hh2 => absurd hh2 (by simp),
      fun hfe => ?_, fun hfe => ?_, fun hfe => ?_, fun hfe => ?_⟩
    · rw [Nat.sub_add_cancel hctx.1]
      exact hf
    · exact absurd (hdn.symm.trans (hUU hfe)) (by simp)
    · exact Instr.noConfusion (fetch_uniq hctx.2.1 hfe)
    · exact absurd (hdn.symm.trans (hSU hfe)) (by simp)
    · exact Instr.noConfusion (fetch_uniq hctx.2.1 hfe)
  -- down: emitD
  · refine ⟨fun hb => absurd (hbl ▸ hb) (by simp), hHU, fun hh => ?_,
      hUU, fun hfe => ?_, hSU, fun hfe => ?_⟩
    · rcases hHD hh with h2 | h2 <;> exact Instr.noConfusion (fetch_uniq hf h2)
    · have h2 := (hdU (c.downPc + 1) (fetch_lt hfe) hfe).2
      rw [Nat.add_sub_cancel] at h2
      rcases h2 with h2 | h2 <;> exact Instr.noConfusion (fetch_uniq hf h2)
    · have h2 := (hdC (c.downPc + 1) (fetch_lt hfe) hfe).2.1
      rw [Nat.add_sub_cancel] at h2
      exact Instr.noConfusion (fetch_uniq hf h2)
  -- spurious wakeup
  · exact ⟨fun hb => absurd hb (by simp), hHU, hHD, hUU, hUD, hSU, hCD⟩

theorem inv_init {pu pd : List Instr}
    (h1 : pu[0]? ≠ some Instr.setFlag) (h2 : pu[0]? ≠ some Instr.unlockS)
    (h3 : pd[0]? ≠ some Instr.checkGate) (h4 : pd[0]? ≠ some Instr.unlockS) :
    Inv pu pd initConfig := by
  refine ⟨fun hb => absurd hb (by simp [initConfig]),
    fun hh => absurd hh (by simp [initConfig]),
    fun hh => absurd hh (by simp [initConfig]),
    fun hf => absurd hf h2, fun hf => absurd hf h4,
    fun hf => absurd hf h1, fun hf => absurd hf h3⟩

/-- Only the up worker's `setFlag` instruction ever changes the shared
flag, and it only raises it. -/
theorem flag_step {pu pd : List Instr} {c : Config} {ch : Choice} {c' : Config}
    (h : step pu pd c ch = some c') :
    (c.flag = true → c'.flag = true) ∧
    (c'.flag ≠ c.flag → ch = Choice.up ∧ pu[c.upPc]? = some Instr.setFlag ∧ c'.flag = true) := by
  rcases step_cases h with
      ⟨rfl, l, hf, rfl⟩ | ⟨rfl, hf, rfl⟩ | ⟨rfl, hf, hh, rfl⟩ | ⟨rfl, hf, rfl⟩ | ⟨rfl, hf, rfl⟩ |
      ⟨rfl, hf, rfl⟩ | ⟨rfl, hf, rfl⟩ | ⟨rfl, hbl, l, hf, rfl⟩ | ⟨rfl, hbl, hf, rfl⟩ |
      ⟨rfl, hbl, hf, hh, rfl⟩ | ⟨rfl, hbl, hf, rfl⟩ | ⟨rfl, hbl, hf, hfl, rfl⟩ |
      ⟨rfl, hbl, hf, hfl, rfl⟩ | ⟨rfl, hbl, hf, rfl⟩ | ⟨rfl, hbl, rfl⟩ <;>
    simp_all

/-- Helper: membership in a drop survives executing a different head. -/
theorem mem_drop_succ {l : List Instr} {n : Nat} {a b : Instr}
    (hm : a ∈ l.drop n) (hf : l[n]? = some b) (hne : a ≠ b) : a ∈ l.drop (n + 1) := by
  obtain ⟨hlt, hg⟩ := List.getElem?_eq_some.mp hf
  rw [List.drop_eq_getElem_cons hlt] at hm
  rcases List.mem_cons.mp hm with h1 | h1
  · exact absurd (h1.trans hg) hne
  · exact h1

/-- Helper: a fetched instruction lies in the executed prefix one longer. -/
theorem mem_take_succ_self {l : List Instr} {n : Nat} {a : Instr}
    (hf : l[n]? = some a) : a ∈ l.take (n + 1) := by
  rw [List.take_succ, hf]
  simp

/-- Helper: membership in an executed prefix is stable. -/
theorem mem_take_succ {l : List Instr} {n : Nat} {a : Instr}
    (hm : a ∈ l.take n) : a ∈ l.take (n + 1) := by
  rw [List.take_succ]
  exact List.mem_append_left _ hm

/-- If the flag is not yet set, the `setFlag` instruction is still ahead
of the up worker (preserved by every step). -/
theorem flag_pending_step {pu pd : List Instr} {c : Config} {ch : Choice} {c' : Config}
    (hp : Instr.setFlag ∈ pu.drop c.upPc ∨ c.flag = true)
    (h : step pu pd c ch = some c') :
    Instr.setFlag ∈ pu.drop c'.upPc ∨ c'.flag = true := by
  rcases step_cases h with
      ⟨-, l, hf, rfl⟩ | ⟨-, hf, rfl⟩ | ⟨-, hf, hh, rfl⟩ | ⟨-, hf, rfl⟩ | ⟨-, hf, rfl⟩ |
      ⟨-, hf, rfl⟩ | ⟨-, hf, rfl⟩ | ⟨-, hbl, l, hf, rfl⟩ | ⟨-, hbl, hf, rfl⟩ |
      ⟨-, hbl, hf, hh, rfl⟩ | ⟨-, hbl, hf, rfl⟩ | ⟨-, hbl, hf, hfl, rfl⟩ |
      ⟨-, hbl, hf, hfl, rfl⟩ | ⟨-, hbl, hf, rfl⟩ | ⟨-, hbl, rfl⟩
  · rcases hp with hp | hp
    · exact Or.inl (mem_drop_succ hp hf (by simp))
    · exact Or.inr hp
  · rcases hp with hp | hp
    · exact Or.inl (mem_drop_succ hp hf (by simp))
    · exact Or.inr hp
  · rcases hp with hp | hp
    · exact Or.inl (mem_drop_succ hp hf (by simp))
    · exact Or.inr hp
  · rcases hp with hp | hp
    · exact Or.inl (mem_drop_succ hp hf (by simp))
    · exact Or.inr hp
  · exact Or.inr rfl
  · rcases hp with hp | hp
    · exact Or.inl (mem_drop_succ hp hf (by simp))
    · exact Or.inr hp
  · rcases hp with hp | hp
    · exact Or.inl (mem_drop_succ hp hf (by simp))
    · exact Or.inr hp
  all_goals exact hp

/-- If the flag is set, `setFlag` is among the instructions the up
worker has already executed (preserved by every step). -/
theorem flag_executed_step {pu pd : List Instr} {c : Config} {ch : Choice} {c' : Config}
    (hp : c.flag = true → Instr.setFlag ∈ pu.take c.upPc)
    (h : step pu pd c ch = some c') :
    c'.flag = true → Instr.setFlag ∈ pu.take c'.upPc := by
  rcases step_cases h with
      ⟨-, l, hf, rfl⟩ | ⟨-, hf, rfl⟩ | ⟨-, hf, hh, rfl⟩ | ⟨-, hf, rfl⟩ | ⟨-, hf, rfl⟩ |
      ⟨-, hf, rfl⟩ | ⟨-, hf, rfl⟩ | ⟨-, hbl, l, hf, rfl⟩ | ⟨-, hbl, hf, rfl⟩ |
      ⟨-, hbl, hf, hh, rfl⟩ | ⟨-, hbl, hf, rfl⟩ | ⟨-, hbl, hf, hfl, rfl⟩ |
      ⟨-, hbl, hf, hfl, rfl⟩ | ⟨-, hbl, hf, rfl⟩ | ⟨-, hbl, rfl⟩
  · exact fun hfl => mem_take_succ (hp hfl)
  · exact fun hfl => mem_take_succ (hp hfl)
  · exact fun hfl => mem_take_succ (hp hfl)
  · exact fun hfl => mem_take_succ (hp hfl)
  · exact fun _ => mem_take_succ_self hf
  · exact fun hfl => mem_take_succ (hp hfl)
  · exact fun hfl => mem_take_succ (hp hfl)
  all_goals exact hp

/-- While the down worker is blocked, either a wakeup from the up worker
is still ahead of it, or the flag is still down (preserved by every
step, given the notify shape). -/
theorem notify_pending_step {pu pd : List Instr} (hn : UpNotifyShape pu)
    {c : Config} {ch : Choice} {c' : Config}
    (hp : c.blocked = true → Instr.notifyOne ∈ pu.drop c.upPc ∨ c.flag = false)
    (h : step pu pd c ch = some c') :
    c'.blocked = true → Instr.notifyOne ∈ pu.drop c'.upPc ∨ c'.flag = false := by
  rcases step_cases h with
      ⟨-, l, hf, rfl⟩ | ⟨-, hf, rfl⟩ | ⟨-, hf, hh, rfl⟩ | ⟨-, hf, rfl⟩ | ⟨-, hf, rfl⟩ |
      ⟨-, hf, rfl⟩ | ⟨-, hf, rfl⟩ | ⟨-, hbl, l, hf, rfl⟩ | ⟨-, hbl, hf, rfl⟩ |
      ⟨-, hbl, hf, hh, rfl⟩ | ⟨-, hbl, hf, rfl⟩ | ⟨-, hbl, hf, hfl, rfl⟩ |
      ⟨-, hbl, hf, hfl, rfl⟩ | ⟨-, hbl, hf, rfl⟩ | ⟨-, hbl, rfl⟩
  · intro hb
    rcases hp hb with hp | hp
    · exact Or.inl (mem_drop_succ hp hf (by simp))
    · exact Or.inr hp
  · intro hb
    rcases hp hb with hp | hp
    · exact Or.inl (mem_drop_succ hp hf (by simp))
    · exact Or.inr hp
  · intro hb
    rcases hp hb with hp | hp
    · exact Or.inl (mem_drop_succ hp hf (by simp))
    · exact Or.inr hp
  · intro hb
    rcases hp hb with hp | hp
    · exact Or.inl (mem_drop_succ hp hf (by simp))
    · exact Or.inr hp
  · intro hb
    exact Or.inl (hn c.upPc (fetch_lt hf) hf)
  · intro hb
    exact absurd hb (by simp)
  · intro hb
    rcases hp hb with hp | hp
    · exact Or.inl (mem_drop_succ hp hf (by simp))
    · exact Or.inr hp
  · exact fun hb => hp (hbl ▸ hb) |>.imp id id
  · exact fun hb => hp (hbl ▸ hb) |>.imp id id
  · exact fun hb => hp (hbl ▸ hb) |>.imp id id
  · exact fun hb => hp (hbl ▸ hb) |>.imp id id
  · exact fun hb => hp (hbl ▸ hb) |>.imp id id
  · exact fun _ => Or.inr hfl
  · exact fun hb => hp (hbl ▸ hb) |>.imp id id
  · exact fun hb => absurd hb (by simp)

/-- If neither worker can step, the up worker has returned. -/
theorem stuck_up_done {pu pd : List Instr} (hu : UpShape pu)
    {c : Config} (hinv : Inv pu pd c) (hs : StuckNS pu pd c) :
    pu[c.upPc]? = none := by
  obtain ⟨-, -, -, huA⟩ := hu
  obtain ⟨hB, hHU, hHD, hUU, hUD, hSU, hCD⟩ := hinv
  obtain ⟨hsu, hsd⟩ := hs
  rcases hf : pu[c.upPc]? with _ | i
  · rfl
  · exfalso
    simp only [step, hf] at hsu
    cases i <;> simp only [stepUp] at hsu <;> try exact Option.noConfusion hsu
    case lockS =>
      rcases hh : c.holder with _ | t <;> rw [hh] at hsu
      · exact Option.noConfusion hsu
      · cases t
        · rcases hHU hh with h2 | h2 <;> exact Instr.noConfusion (fetch_uniq hf h2)
        · have hnb : c.blocked = false := by
            rcases hb2 : c.blocked with _ | _
            · rfl
            · exact absurd hh (hB hb2).1
          simp only [step, hnb, Bool.false_eq_true, if_false] at hsd
          rcases hHD hh with h2 | h2 <;> rw [h2] at hsd <;>
            simp only [stepDown] at hsd
          · rcases hfl : c.flag with _ | _ <;> rw [hfl] at hsd <;>
              simp only [if_true, if_false, Bool.false_eq_true, Bool.true_eq_false] at hsd <;>
              exact Option.noConfusion hsd
          · exact Option.noConfusion hsd
    case checkGate => exact huA.1 (List.getElem?_mem hf)
    case buildD => exact huA.2.1 (List.getElem?_mem hf)
    case emitD => exact huA.2.2 (List.getElem?_mem hf)

/-- If neither worker can step and the up body contains `setFlag` with a
subsequent `notifyOne`, both workers have returned. -/
theorem stuck_done {pu pd : List Instr} (hu : UpShape pu) (hd : DownShape pd)
    {c : Config} (hinv : Inv pu pd c)
    (hpend : Instr.setFlag ∈ pu.drop c.upPc ∨ c.flag = true)
    (hblk : c.blocked = true → Instr.notifyOne ∈ pu.drop c.upPc ∨ c.flag = false)
    (hs : StuckNS pu pd c) : Done pu pd c := by
  have hupd := stuck_up_done hu hinv hs
  have hlen : pu.length ≤ c.upPc := List.getElem?_eq_none_iff.mp hupd
  have hdrop : pu.drop c.upPc = [] := List.drop_eq_nil_of_le hlen
  have hfl : c.flag = true := by
    rcases hpend with hp | hp
    · rw [hdrop] at hp
      exact absurd hp (List.not_mem_nil _)
    · exact hp
  have hnb : c.blocked = false := by
    rcases hb2 : c.blocked with _ | _
    · rfl
    · rcases hblk hb2 with hp | hp
      · rw [hdrop] at hp
        exact absurd hp (List.not_mem_nil _)
      · rw [hfl] at hp
        exact absurd hp (by simp)
  obtain ⟨-, -, -, hdA⟩ := hd
  obtain ⟨hB, hHU, hHD, hUU, hUD, hSU, hCD⟩ := hinv
  obtain ⟨hsu, hsd⟩ := hs
  refine ⟨hlen, ?_⟩
  simp only [step, hnb, Bool.false_eq_true, if_false] at hsd
  rcases hf : pd[c.downPc]? with _ | i
  · exact List.getElem?_eq_none_iff.mp hf
  · exfalso
    rw [hf] at hsd
    cases i <;> simp only [stepDown] at hsd <;> try exact Option.noConfusion hsd
    case lockS =>
      rcases hh : c.holder with _ | t <;> rw [hh] at hsd
      · exact Option.noConfusion hsd
      · cases t
        · rcases hHU hh with h2 | h2 <;> rw [h2] at hupd <;> exact Option.noConfusion hupd
        · rcases hHD hh with h2 | h2 <;> exact Instr.noConfusion (fetch_uniq hf h2)
    case checkGate =>
      rw [hfl] at hsd
      simp only [if_true] at hsd
      exact Option.noConfusion hsd
    case setFlag => exact hdA.1 (List.getElem?_mem hf)
    case notifyOne => exact hdA.2.1 (List.getElem?_mem hf)
    case buildU => exact hdA.2.2.1 (List.getElem?_mem hf)
    case emitU => exact hdA.2.2.2 (List.getElem?_mem hf)

theorem measure_decreases {pu pd : List Instr} {c : Config} {ch : Choice} {c' : Config}
    (hch : ch ≠ Choice.spur) (h : step pu pd c ch = some c') :
    stepMeasure pu pd c' < stepMeasure pu pd c := by
  rcases step_cases h with
      ⟨-, l, hf, rfl⟩ | ⟨-, hf, rfl⟩ | ⟨-, hf, hh, rfl⟩ | ⟨-, hf, rfl⟩ | ⟨-, hf, rfl⟩ |
      ⟨-, hf, rfl⟩ | ⟨-, hf, rfl⟩ | ⟨-, hbl, l, hf, rfl⟩ | ⟨-, hbl, hf, rfl⟩ |
      ⟨-, hbl, hf, hh, rfl⟩ | ⟨-, hbl, hf, rfl⟩ | ⟨-, hbl, hf, hfl, rfl⟩ |
      ⟨-, hbl, hf, hfl, rfl⟩ | ⟨-, hbl, hf, rfl⟩ | ⟨hsp, hbl, rfl⟩
  · have hlt := fetch_lt hf
    by_cases hb2 : c.blocked <;> simp [stepMeasure, hb2] <;> omega
  · have hlt := fetch_lt hf
    by_cases hb2 : c.blocked <;> simp [stepMeasure, hb2] <;> omega
  · have hlt := fetch_lt hf
    by_cases hb2 : c.blocked <;> simp [stepMeasure, hb2] <;> omega
  · have hlt := fetch_lt hf
    by_cases hb2 : c.blocked <;> simp [stepMeasure, hb2] <;> omega
  · have hlt := fetch_lt hf
    by_cases hb2 : c.blocked <;> simp [stepMeasure, hb2] <;> omega
  · have hlt := fetch_lt hf
    by_cases hb2 : c.blocked <;> simp [stepMeasure, hb2] <;> omega
  · have hlt := fetch_lt hf
    by_cases hb2 : c.blocked <;> simp [stepMeasure, hb2] <;> omega
  · have hlt := fetch_lt hf
    simp [stepMeasure, hbl]
    omega
  · have hlt := fetch_lt hf
    simp [stepMeasure, hbl]
    omega
  · have hlt := fetch_lt hf
    simp [stepMeasure, hbl]
    omega
  · have hlt := fetch_lt hf
    simp [stepMeasure, hbl]
    omega
  · have hlt := fetch_lt hf
    simp [stepMeasure, hbl]
    omega
  · have hlt := fetch_lt hf
    simp [stepMeasure, hbl]
    omega
  · have hlt := fetch_lt hf
    simp [stepMeasure, hbl]
    omega
  · exact absurd hsp hch

/-- A run without spurious wakeups performs at most `stepMeasure` steps. -/
theorem run_nospur_length {pu pd : List Instr} :
    ∀ (s : List Choice) (c₀ c : Config), Choice.spur ∉ s →
      run pu pd c₀ s = some c →
      s.length + stepMeasure pu pd c ≤ stepMeasure pu pd c₀ := by
  intro s
  induction s with
  | nil =>
      intro c₀ c hns hr
      simp only [run] at hr
      rw [Option.some.inj hr]
      simp
  | cons ch s ih =>
      intro c₀ c hns hr
      simp only [run] at hr
      rcases hs : step pu pd c₀ ch with _ | c₁ <;> rw [hs] at hr
      · exact absurd hr (by simp)
      · have hch : ch ≠ Choice.spur := fun he => hns (he ▸ List.mem_cons_self _ _)
        have h1 := measure_decreases hch hs
        have h2 := ih c₁ c (fun hm => hns (List.mem_cons_of_mem _ hm)) hr
        simp only [List.length_cons]
        omega

/-- Every already-executed `printLine` of the up worker has left its
line in the trace (invariant preserved by every step). -/
theorem up_printed_step {pu pd : List Instr} {c : Config} {ch : Choice} {c' : Config}
    (hp : ∀ i l, pu[i]? = some (Instr.printLine l) → i < c.upPc → (Tag.up, l) ∈ c.trace)
    (h : step pu pd c ch = some c') :
    ∀ i l, pu[i]? = some (Instr.printLine l) → i < c'.upPc → (Tag.up, l) ∈ c'.trace := by
  rcases step_cases h with
      ⟨-, l0, hf, rfl⟩ | ⟨-, hf, rfl⟩ | ⟨-, hf, hh, rfl⟩ | ⟨-, hf, rfl⟩ | ⟨-, hf, rfl⟩ |
      ⟨-, hf, rfl⟩ | ⟨-, hf, rfl⟩ | ⟨-, hbl, l0, hf, rfl⟩ | ⟨-, hbl, hf, rfl⟩ |
      ⟨-, hbl, hf, hh, rfl⟩ | ⟨-, hbl, hf, rfl⟩ | ⟨-, hbl, hf, hfl, rfl⟩ |
      ⟨-, hbl, hf, hfl, rfl⟩ | ⟨-, hbl, hf, rfl⟩ | ⟨-, hbl, rfl⟩
  · intro i l hi hlt
    rcases Nat.lt_succ_iff_lt_or_eq.mp hlt with hlt | rfl
    · exact List.mem_append_left _ (hp i l hi hlt)
    · have := Instr.printLine.inj (fetch_uniq hi hf)
      exact this ▸ List.mem_append_right _ (by simp)
  · intro i l hi hlt
    rcases Nat.lt_succ_iff_lt_or_eq.mp hlt with hlt | rfl
    · exact hp i l hi hlt
    · exact Instr.noConfusion (fetch_uniq hi hf)
  · intro i l hi hlt
    rcases Nat.lt_succ_iff_lt_or_eq.mp hlt with hlt | rfl
    · exact hp i l hi hlt
    · exact Instr.noConfusion (fetch_uniq hi hf)
  · intro i l hi hlt
    rcases Nat.lt_succ_iff_lt_or_eq.mp hlt with hlt | rfl
    · exact hp i l hi hlt
    · exact Instr.noConfusion (fetch_uniq hi hf)
  · intro i l hi hlt
    rcases Nat.lt_succ_iff_lt_or_eq.mp hlt with hlt | rfl
    · exact hp i l hi hlt
    · exact Instr.noConfusion (fetch_uniq hi hf)
  · intro i l hi hlt
    rcases Nat.lt_succ_iff_lt_or_eq.mp hlt with hlt | rfl
    · exact hp i l hi hlt
    · exact Instr.noConfusion (fetch_uniq hi hf)
  · intro i l hi hlt
    rcases Nat.lt_succ_iff_lt_or_eq.mp hlt with hlt | rfl
    · exact List.mem_append_left _ (hp i l hi hlt)
    · exact Instr.noConfusion (fetch_uniq hi hf)
  · exact fun i l hi hlt => List.mem_append_left _ (hp i l hi hlt)
  · exact fun i l hi hlt => hp i l hi hlt
  · exact fun i l hi hlt => hp i l hi hlt
  · exact fun i l hi hlt => hp i l hi hlt
  · exact fun i l hi hlt => hp i l hi hlt
  · exact fun i l hi hlt => hp i l hi hlt
  · exact fun i l hi hlt => List.mem_append_left _ (hp i l hi hlt)
  · exact fun i l hi hlt => hp i l hi hlt

/-- Every already-executed `printLine` of the down worker has left its
line in the trace (invariant preserved by every step; blocking moves the
down program counter backwards, which only weakens the claim). -/
theorem down_printed_step {pu pd : List Instr} {c : Config} {ch : Choice} {c' : Config}
    (hp : ∀ i l, pd[i]? = some (Instr.printLine l) → i < c.downPc → (Tag.down, l) ∈ c.trace)
    (h : step pu pd c ch = some c') :
    ∀ i l, pd[i]? = some (Instr.printLine l) → i < c'.downPc → (Tag.down, l) ∈ c'.trace := by
  rcases step_cases h with
      ⟨-, l0, hf, rfl⟩ | ⟨-, hf, rfl⟩ | ⟨-, hf, hh, rfl⟩ | ⟨-, hf, rfl⟩ | ⟨-, hf, rfl⟩ |
      ⟨-, hf, rfl⟩ | ⟨-, hf, rfl⟩ | ⟨-, hbl, l0, hf, rfl⟩ | ⟨-, hbl, hf, rfl⟩ |
      ⟨-, hbl, hf, hh, rfl⟩ | ⟨-, hbl, hf, rfl⟩ | ⟨-, hbl, hf, hfl, rfl⟩ |
      ⟨-, hbl, hf, hfl, rfl⟩ | ⟨-, hbl, hf, rfl⟩ | ⟨-, hbl, rfl⟩
  · exact fun i l hi hlt => List.mem_append_left _ (hp i l hi hlt)
  · exact fun i l hi hlt => hp i l hi hlt
  · exact fun i l hi hlt => hp i l hi hlt
  · exact fun i l hi hlt => hp i l hi hlt
  · exact fun i l hi hlt => hp i l hi hlt
  · exact fun i l hi hlt => hp i l hi hlt
  · exact fun i l hi hlt => List.mem_append_left _ (hp i l hi hlt)
  · intro i l hi hlt
    rcases Nat.lt_succ_iff_lt_or_eq.mp hlt with hlt | rfl
    · exact List.mem_append_left _ (hp i l hi hlt)
    · have := Instr.printLine.inj (fetch_uniq hi hf)
      exact this ▸ List.mem_append_right _ (by simp)
  · intro i l hi hlt
    rcases Nat.lt_succ_iff_lt_or_eq.mp hlt with hlt | rfl
    · exact hp i l hi hlt
    · exact Instr.noConfusion (fetch_uniq hi hf)
  · intro i l hi hlt
    rcases Nat.lt_succ_iff_lt_or_eq.mp hlt with hlt | rfl
    · exact hp i l hi hlt
    · exact Instr.noConfusion (fetch_uniq hi hf)
  · intro i l hi hlt
    rcases Nat.lt_succ_iff_lt_or_eq.mp hlt with hlt | rfl
    · exact hp i l hi hlt
    · exact Instr.noConfusion (fetch_uniq hi hf)
  · intro i l hi hlt
    rcases Nat.lt_succ_iff_lt_or_eq.mp hlt with hlt | rfl
    · exact hp i l hi hlt
    · exact Instr.noConfusion (fetch_uniq hi hf)
  · exact fun i l hi hlt => hp i l hi (Nat.lt_of_lt_of_le hlt (Nat.sub_le _ _))
  · intro i l hi hlt
    rcases Nat.lt_succ_iff_lt_or_eq.mp hlt with hlt | rfl
    · exact List.mem_append_left _ (hp i l hi hlt)
    · exact Instr.noConfusion (fetch_uniq hi hf)
  · exact fun i l hi hlt => hp i l hi hlt

/-- Once the down worker has executed its `emitD`, a DOWN values line is
in the trace (invariant preserved by every step). -/
theorem down_emitted_step {pu pd : List Instr} {c : Config} {ch : Choice} {c' : Config}
    (hp : ∀ i, pd[i]? = some Instr.emitD → i < c.downPc →
      ∃ vs, (Tag.down, Line.downValues vs) ∈ c.trace)
    (h : step pu pd c ch = some c') :
    ∀ i, pd[i]? = some Instr.emitD → i < c'.downPc →
      ∃ vs, (Tag.down, Line.downValues vs) ∈ c'.trace := by
  rcases step_cases h with
      ⟨-, l0, hf, rfl⟩ | ⟨-, hf, rfl⟩ | ⟨-, hf, hh, rfl⟩ | ⟨-, hf, rfl⟩ | ⟨-, hf, rfl⟩ |
      ⟨-, hf, rfl⟩ | ⟨-, hf, rfl⟩ | ⟨-, hbl, l0, hf, rfl⟩ | ⟨-, hbl, hf, rfl⟩ |
      ⟨-, hbl, hf, hh, rfl⟩ | ⟨-, hbl, hf, rfl⟩ | ⟨-, hbl, hf, hfl, rfl⟩ |
      ⟨-, hbl, hf, hfl, rfl⟩ | ⟨-, hbl, hf, rfl⟩ | ⟨-, hbl, rfl⟩
  · exact fun i hi hlt => (hp i hi hlt).imp fun vs hm => List.mem_append_left _ hm
  · exact fun i hi hlt => hp i hi hlt
  · exact fun i hi hlt => hp i hi hlt
  · exact fun i hi hlt => hp i hi hlt
  · exact fun i hi hlt => hp i hi hlt
  · exact fun i hi hlt => hp i hi hlt
  · exact fun i hi hlt => (hp i hi hlt).imp fun vs hm => List.mem_append_left _ hm
  · intro i hi hlt
    rcases Nat.lt_succ_iff_lt_or_eq.mp hlt with hlt | rfl
    · exact (hp i hi hlt).imp fun vs hm => List.mem_append_left _ hm
    · exact Instr.noConfusion (fetch_uniq hi hf)
  · intro i hi hlt
    rcases Nat.lt_succ_iff_lt_or_eq.mp hlt with hlt | rfl
    · exact hp i hi hlt
    · exact Instr.noConfusion (fetch_uniq hi hf)
  · intro i hi hlt
    rcases Nat.lt_succ_iff_lt_or_eq.mp hlt with hlt | rfl
    · exact hp i hi hlt
    · exact Instr.noConfusion (fetch_uniq hi hf)
  · intro i hi hlt
    rcases Nat.lt_succ_iff_lt_or_eq.mp hlt with hlt | rfl
    · exact hp i hi hlt
    · exact Instr.noConfusion (fetch_uniq hi hf)
  · intro i hi hlt
    rcases Nat.lt_succ_iff_lt_or_eq.mp hlt with hlt | rfl
    · exact hp i hi hlt
    · exact Instr.noConfusion (fetch_uniq hi hf)
  · exact fun i hi hlt => hp i hi (Nat.lt_of_lt_of_le hlt (Nat.sub_le _ _))
  · intro i hi hlt
    rcases Nat.lt_succ_iff_lt_or_eq.mp hlt with hlt | rfl
    · exact (hp i hi hlt).imp fun vs hm => List.mem_append_left _ hm
    · exact ⟨c.downBuf, List.mem_append_right _ (by simp)⟩
  · exact fun i hi hlt => hp i hi hlt

/-- Once the up worker has executed its `emitU`, an UP values line is in
the trace (invariant preserved by every step). -/
theorem up_emitted_step {pu pd : List Instr} {c : Config} {ch : Choice} {c' : Config}
    (hp : ∀ i, pu[i]? = some Instr.emitU → i < c.upPc →
      ∃ vs, (Tag.up, Line.upValues vs) ∈ c.trace)
    (h : step pu pd c ch = some c') :
    ∀ i, pu[i]? = some Instr.emitU → i < c'.upPc →
      ∃ vs, (Tag.up, Line.upValues vs) ∈ c'.trace := by
  rcases step_cases h with
      ⟨-, l0, hf, rfl⟩ | ⟨-, hf, rfl⟩ | ⟨-, hf, hh, rfl⟩ | ⟨-, hf, rfl⟩ | ⟨-, hf, rfl⟩ |
      ⟨-, hf, rfl⟩ | ⟨-, hf, rfl⟩ | ⟨-, hbl, l0, hf, rfl⟩ | ⟨-, hbl, hf, rfl⟩ |
      ⟨-, hbl, hf, hh, rfl⟩ | ⟨-, hbl, hf, rfl⟩ | ⟨-, hbl, hf, hfl, rfl⟩ |
      ⟨-, hbl, hf, hfl, rfl⟩ | ⟨-, hbl, hf, rfl⟩ | ⟨-, hbl, rfl⟩
  · intro i hi hlt
    rcases Nat.lt_succ_iff_lt_or_eq.mp hlt with hlt | rfl
    · exact (hp i hi hlt).imp fun vs hm => List.mem_append_left _ hm
    · exact Instr.noConfusion (fetch_uniq hi hf)
  · intro i hi hlt
    rcases Nat.lt_succ_iff_lt_or_eq.mp hlt with hlt | rfl
    · exact hp i hi hlt
    · exact Instr.noConfusion (fetch_uniq hi hf)
  · intro i hi hlt
    rcases Nat.lt_succ_iff_lt_or_eq.mp hlt with hlt | rfl
    · exact hp i hi hlt
    · exact Instr.noConfusion (fetch_uniq hi hf)
  · intro i hi hlt
    rcases Nat.lt_succ_iff_lt_or_eq.mp hlt with hlt | rfl
    · exact hp i hi hlt
    · exact Instr.noConfusion (fetch_uniq hi hf)
  · intro i hi hlt
    rcases Nat.lt_succ_iff_lt_or_eq.mp hlt with hlt | rfl
    · exact hp i hi hlt
    · exact Instr.noConfusion (fetch_uniq hi hf)
  · intro i hi hlt
    rcases Nat.lt_succ_iff_lt_or_eq.mp hlt with hlt | rfl
    · exact hp i hi hlt
    · exact Instr.noConfusion (fetch_uniq hi hf)
  · intro i hi hlt
    rcases Nat.lt_succ_iff_lt_or_eq.mp hlt with hlt | rfl
    · exact (hp i hi hlt).imp fun vs hm => List.mem_append_left _ hm
    · exact ⟨c.upBuf, List.mem_append_right _ (by simp)⟩
  · exact fun i hi hlt => (hp i hi hlt).imp fun vs hm => List.mem_append_left _ hm
  · exact fun i hi hlt => hp i hi hlt
  · exact fun i hi hlt => hp i hi hlt
  · exact fun i hi hlt => hp i hi hlt
  · exact fun i hi hlt => hp i hi hlt
  · exact fun i hi hlt => hp i hi hlt
  · exact fun i hi hlt => (hp i hi hlt).imp fun vs hm => List.mem_append_left _ hm
  · exact fun i hi hlt => hp i hi hlt

/-- Position/instruction table for the failure-free `countUp` body. -/
theorem fetchU_cases {pc : Nat} {i : Instr} (hf : countUpProg[pc]? = some i) :
    (pc = 0 ∧ i = Instr.printLine Line.startingUp) ∨ (pc = 1 ∧ i = Instr.buildU) ∨
    (pc = 2 ∧ i = Instr.lockS) ∨ (pc = 3 ∧ i = Instr.setFlag) ∨
    (pc = 4 ∧ i = Instr.unlockS) ∨ (pc = 5 ∧ i = Instr.notifyOne) ∨
    (pc = 6 ∧ i = Instr.printLine Line.upCompleted) ∨ (pc = 7 ∧ i = Instr.emitU) := by
  have hlt : pc < 8 := fetch_lt hf
  interval_cases pc <;> simp [countUpProg] at hf <;> simp [hf]

/-- Position/instruction table for the failure-free `countDown` body. -/
theorem fetchD_cases {pc : Nat} {i : Instr} (hf : countDownProg[pc]? = some i) :
    (pc = 0 ∧ i = Instr.printLine Line.downWaiting) ∨ (pc = 1 ∧ i = Instr.lockS) ∨
    (pc = 2 ∧ i = Instr.checkGate) ∨ (pc = 3 ∧ i = Instr.unlockS) ∨
    (pc = 4 ∧ i = Instr.printLine Line.gateOpened) ∨ (pc = 5 ∧ i = Instr.buildD) ∨
    (pc = 6 ∧ i = Instr.emitD) := by
  have hlt : pc < 7 := fetch_lt hf
  interval_cases pc <;> simp [countDownProg] at hf <;> simp [hf]

theorem trinv_init : TrInv initConfig := by
  refine ⟨by simp [initConfig], by simp [initConfig],
    fun hx => absurd hx (by simp [initConfig]),
    fun hx => absurd hx (by simp [initConfig]),
    by simp [initConfig], by simp [initConfig],
    fun vs hm => absurd hm (by simp [initConfig]),
    fun vs hm => absurd hm (by simp [initConfig]),
    fun hx => absurd hx (by simp [initConfig]),
    fun hfl => absurd hfl (by simp [initConfig])⟩

theorem trinv_step {c : Config} {ch : Choice} {c' : Config} (ht : TrInv c)
    (h : step countUpProg countDownProg c ch = some c') : TrInv c' := by
  obtain ⟨hU8, hD7, hUB, hDB, hCU, hCD2, hPU, hPD, hDF, hFU⟩ := ht
  rcases step_cases h with
      ⟨-, l, hf, rfl⟩ | ⟨-, hf, rfl⟩ | ⟨-, hf, hh, rfl⟩ | ⟨-, hf, rfl⟩ | ⟨-, hf, rfl⟩ |
      ⟨-, hf, rfl⟩ | ⟨-, hf, rfl⟩ | ⟨-, hbl, l, hf, rfl⟩ | ⟨-, hbl, hf, rfl⟩ |
      ⟨-, hbl, hf, hh, rfl⟩ | ⟨-, hbl, hf, rfl⟩ | ⟨-, hbl, hf, hfl, rfl⟩ |
      ⟨-, hbl, hf, hfl, rfl⟩ | ⟨-, hbl, hf, rfl⟩ | ⟨-, hbl, rfl⟩
  all_goals simp only [TrInv]
  -- up: printLine (pc 0 or 6)
  · rcases fetchU_cases hf with ⟨h0, heq⟩ | ⟨h0, heq⟩ | ⟨h0, heq⟩ | ⟨h0, heq⟩ | ⟨h0, heq⟩ |
        ⟨h0, heq⟩ | ⟨h0, heq⟩ | ⟨h0, heq⟩ <;> try exact Instr.noConfusion heq
    · obtain rfl := Instr.printLine.inj heq
      refine ⟨by omega, hD7, fun hx => absurd hx (by omega), hDB, ?_, ?_, ?_, ?_, hDF,
        fun hfl => absurd (hFU hfl) (by omega)⟩
      · simpa [List.countP_append, isUpValuesLine, h0] using hCU
      · simpa [List.countP_append, isDownValuesLine] using hCD2
      · intro vs hm
        rcases List.mem_append.mp hm with hm | hm
        · exact hPU vs hm
        · simp at hm
      · intro vs hm
        rcases List.mem_append.mp hm with hm | hm
        · exact hPD vs hm
        · simp at hm
    · obtain rfl := Instr.printLine.inj heq
      refine ⟨by omega, hD7, fun _ => hUB (by omega), hDB, ?_, ?_, ?_, ?_, hDF,
        fun _ => by omega⟩
      · simpa [List.countP_append, isUpValuesLine, h0] using hCU
      · simpa [List.countP_append, isDownValuesLine] using hCD2
      · intro vs hm
        rcases List.mem_append.mp hm with hm | hm
        · exact hPU vs hm
        · simp at hm
      · intro vs hm
        rcases List.mem_append.mp hm with hm | hm
        · exact hPD vs hm
        · simp at hm
  -- up: buildU (pc 1)
  · rcases fetchU_cases hf with ⟨h0, heq⟩ | ⟨h0, heq⟩ | ⟨h0, heq⟩ | ⟨h0, heq⟩ | ⟨h0, heq⟩ |
        ⟨h0, heq⟩ | ⟨h0, heq⟩ | ⟨h0, heq⟩ <;> try exact Instr.noConfusion heq
    refine ⟨by omega, hD7, fun _ => trivial, hDB, ?_, hCD2, hPU, hPD, hDF,
      fun hfl => absurd (hFU hfl) (by omega)⟩
    simpa [h0] using hCU
  -- up: lockS (pc 2)
  · rcases fetchU_cases hf with ⟨h0, heq⟩ | ⟨h0, heq⟩ | ⟨h0, heq⟩ | ⟨h0, heq⟩ | ⟨h0, heq⟩ |
        ⟨h0, heq⟩ | ⟨h0, heq⟩ | ⟨h0, heq⟩ <;> try exact Instr.noConfusion heq
    refine ⟨by omega, hD7, fun _ => hUB (by omega), hDB, ?_, hCD2, hPU, hPD, hDF,
      fun hfl => absurd (hFU hfl) (by omega)⟩
    simpa [h0] using hCU
  -- up: unlockS (pc 4)
  · rcases fetchU_cases hf with ⟨h0, heq⟩ | ⟨h0, heq⟩ | ⟨h0, heq⟩ | ⟨h0, heq⟩ | ⟨h0, heq⟩ |
        ⟨h0, heq⟩ | ⟨h0, heq⟩ | ⟨h0, heq⟩ <;> try exact Instr.noConfusion heq
    refine ⟨by omega, hD7, fun _ => hUB (by omega), hDB, ?_, hCD2, hPU, hPD, hDF,
      fun _ => by omega⟩
    simpa [h0] using hCU
  -- up: setFlag (pc 3)
  · rcases fetchU_cases hf with ⟨h0, heq⟩ | ⟨h0, heq⟩ | ⟨h0, heq⟩ | ⟨h0, heq⟩ | ⟨h0, heq⟩ |
        ⟨h0, heq⟩ | ⟨h0, heq⟩ | ⟨h0, heq⟩ <;> try exact Instr.noConfusion heq
    refine ⟨by omega, hD7, fun _ => hUB (by omega), hDB, ?_, hCD2, hPU, hPD,
      fun _ => trivial, fun _ => by omega⟩
    simpa [h0] using hCU
  -- up: notifyOne (pc 5)
  · rcases fetchU_cases hf with ⟨h0, heq⟩ | ⟨h0, heq⟩ | ⟨h0, heq⟩ | ⟨h0, heq⟩ | ⟨h0, heq⟩ |
        ⟨h0, heq⟩ | ⟨h0, heq⟩ | ⟨h0, heq⟩ <;> try exact Instr.noConfusion heq
    refine ⟨by omega, hD7, fun _ => hUB (by omega), hDB, ?_, hCD2, hPU, hPD, hDF,
      fun _ => by omega⟩
    simpa [h0] using hCU
  -- up: emitU (pc 7)
  · rcases fetchU_cases hf with ⟨h0, heq⟩ | ⟨h0, heq⟩ | ⟨h0, heq⟩ | ⟨h0, heq⟩ | ⟨h0, heq⟩ |
        ⟨h0, heq⟩ | ⟨h0, heq⟩ | ⟨h0, heq⟩ <;> try exact Instr.noConfusion heq
    refine ⟨by omega, hD7, fun _ => hUB (by omega), hDB, ?_, ?_, ?_, ?_, hDF,
      fun _ => by omega⟩
    · rw [List.countP_append]
      simp only [h0] at hCU ⊢
      simp [isUpValuesLine, hCU]
    · simpa [List.countP_append, isDownValuesLine] using hCD2
    · intro vs hm
      rcases List.mem_append.mp hm with hm | hm
      · exact hPU vs hm
      · simp at hm
        rw [hm]
        exact hUB (by omega)
    · intro vs hm
      rcases List.mem_append.mp hm with hm | hm
      · exact hPD vs hm
      · simp at hm
  -- down: printLine (pc 0 or 4)
  · rcases fetchD_cases hf with ⟨h0, heq⟩ | ⟨h0, heq⟩ | ⟨h0, heq⟩ | ⟨h0, heq⟩ | ⟨h0, heq⟩ |
        ⟨h0, heq⟩ | ⟨h0, heq⟩ <;> try exact Instr.noConfusion heq
    · obtain rfl := Instr.printLine.inj heq
      refine ⟨hU8, by omega, hUB, fun hx => absurd hx (by omega), ?_, ?_, ?_, ?_,
        fun hx => absurd hx (by omega), hFU⟩
      · simpa [List.countP_append, isUpValuesLine] using hCU
      · simpa [List.countP_append, isDownValuesLine, h0] using hCD2
      · intro vs hm
        rcases List.mem_append.mp hm with hm | hm
        · exact hPU vs hm
        · simp at hm
      · intro vs hm
        rcases List.mem_append.mp hm with hm | hm
        · exact hPD vs hm
        · simp at hm
    · obtain rfl := Instr.printLine.inj heq
      refine ⟨hU8, by omega, hUB, fun hx => absurd hx (by omega), ?_, ?_, ?_, ?_,
        fun _ => hDF (by omega), hFU⟩
      · simpa [List.countP_append, isUpValuesLine] using hCU
      · simpa [List.countP_append, isDownValuesLine, h0] using hCD2
      · intro vs hm
        rcases List.mem_append.mp hm with hm | hm
        · exact hPU vs hm
        · simp at hm
      · intro vs hm
        rcases List.mem_append.mp hm with hm | hm
        · exact hPD vs hm
        · simp at hm
  -- down: buildD (pc 5)
  · rcases fetchD_cases hf with ⟨h0, heq⟩ | ⟨h0, heq⟩ | ⟨h0, heq⟩ | ⟨h0, heq⟩ | ⟨h0, heq⟩ |
        ⟨h0, heq⟩ | ⟨h0, heq⟩ <;> try exact Instr.noConfusion heq
    refine ⟨hU8, by omega, hUB, fun _ => trivial, hCU, ?_, hPU, hPD,
      fun _ => hDF (by omega), hFU⟩
    simpa [h0] using hCD2
  -- down: lockS (pc 1)
  · rcases fetchD_cases hf with ⟨h0, heq⟩ | ⟨h0, heq⟩ | ⟨h0, heq⟩ | ⟨h0, heq⟩ | ⟨h0, heq⟩ |
        ⟨h0, heq⟩ | ⟨h0, heq⟩ <;> try exact Instr.noConfusion heq
    refine ⟨hU8, by omega, hUB, fun hx => absurd hx (by omega), hCU, ?_, hPU, hPD,
      fun hx => absurd hx (by omega), hFU⟩
    simpa [h0] using hCD2
  -- down: unlockS (pc 3)
  · rcases fetchD_cases hf with ⟨h0, heq⟩ | ⟨h0, heq⟩ | ⟨h0, heq⟩ | ⟨h0, heq⟩ | ⟨h0, heq⟩ |
        ⟨h0, heq⟩ | ⟨h0, heq⟩ <;> try exact Instr.noConfusion heq
    refine ⟨hU8, by omega, hUB, fun hx => absurd hx (by omega), hCU, ?_, hPU, hPD,
      fun _ => hDF (by omega), hFU⟩
    simpa [h0] using hCD2
  -- down: checkGate, flag true (pc 2)
  · rcases fetchD_cases hf with ⟨h0, heq⟩ | ⟨h0, heq⟩ | ⟨h0, heq⟩ | ⟨h0, heq⟩ | ⟨h0, heq⟩ |
        ⟨h0, heq⟩ | ⟨h0, heq⟩ <;> try exact Instr.noConfusion heq
    refine ⟨hU8, by omega, hUB, fun hx => absurd hx (by omega), hCU, ?_, hPU, hPD,
      fun _ => hfl, hFU⟩
    simpa [h0] using hCD2
  -- down: checkGate, flag false (pc 2) — block
  · rcases fetchD_cases hf with ⟨h0, heq⟩ | ⟨h0, heq⟩ | ⟨h0, heq⟩ | ⟨h0, heq⟩ | ⟨h0, heq⟩ |
        ⟨h0, heq⟩ | ⟨h0, heq⟩ <;> try exact Instr.noConfusion heq
    refine ⟨hU8, by omega, hUB, fun hx => absurd hx (by omega), hCU, ?_, hPU, hPD,
      fun hx => absurd hx (by omega), hFU⟩
    simpa [h0] using hCD2
  -- down: emitD (pc 6)
  · rcases fetchD_cases hf with ⟨h0, heq⟩ | ⟨h0, heq⟩ | ⟨h0, heq⟩ | ⟨h0, heq⟩ | ⟨h0, heq⟩ |
        ⟨h0, heq⟩ | ⟨h0, heq⟩ <;> try exact Instr.noConfusion heq
    refine ⟨hU8, by omega, hUB, fun _ => hDB (by omega), ?_, ?_, ?_, ?_,
      fun _ => hDF (by omega), hFU⟩
    · simpa [List.countP_append, isUpValuesLine] using hCU
    · rw [List.countP_append]
      simp only [h0] at hCD2 ⊢
      simp [isDownValuesLine, hCD2]
    · intro vs hm
      rcases List.mem_append.mp hm with hm | hm
      · exact hPU vs hm
      · simp at hm
    · intro vs hm
      rcases List.mem_append.mp hm with hm | hm
      · exact hPD vs hm
      · simp at hm
        rw [hm]
        exact hDB (by omega)
  -- spurious wakeup
  · exact ⟨hU8, hD7, hUB, hDB, hCU, hCD2, hPU, hPD, hDF, hFU⟩

/-- Reachability wrapper for the mutex/wait invariant. -/
theorem reach_inv {pu pd : List Instr} (hu : UpShape pu) (hd : DownShape pd)
    (h1 : pu[0]? ≠ some Instr.setFlag) (h2 : pu[0]? ≠ some Instr.unlockS)
    (h3 : pd[0]? ≠ some Instr.checkGate) (h4 : pd[0]? ≠ some Instr.unlockS)
    {s : List Choice} {c : Config} (hr : run pu pd initConfig s = some c) :
    Inv pu pd c :=
  run_inv (Inv pu pd) (fun _ _ _ hi h => inv_step hu hd hi h) s initConfig c
    (inv_init h1 h2 h3 h4) hr

/-- Reachability wrapper: the `setFlag` instruction is pending or the
flag is already set. -/
theorem reach_flag_pending {pu pd : List Instr} (hsf : Instr.setFlag ∈ pu)
    {s : List Choice} {c : Config} (hr : run pu pd initConfig s = some c) :
    Instr.setFlag ∈ pu.drop c.upPc ∨ c.flag = true :=
  run_inv (fun c => Instr.setFlag ∈ pu.drop c.upPc ∨ c.flag = true)
    (fun _ _ _ hp h => flag_pending_step hp h) s initConfig c
    (Or.inl (by simpa [initConfig] using hsf)) hr

/-- Reachability wrapper: a set flag means `setFlag` has been executed. -/
theorem reach_flag_executed {pu pd : List Instr}
    {s : List Choice} {c : Config} (hr : run pu pd initConfig s = some c) :
    c.flag = true → Instr.setFlag ∈ pu.take c.upPc :=
  run_inv (fun c => c.flag = true → Instr.setFlag ∈ pu.take c.upPc)
    (fun _ _ _ hp h => flag_executed_step hp h) s initConfig c
    (fun hfl => absurd hfl (by simp [initConfig])) hr

/-- Reachability wrapper: a program without `setFlag` never raises the flag. -/
theorem reach_flag_false {pu pd : List Instr} (hsf : Instr.setFlag ∉ pu)
    {s : List Choice} {c : Config} (hr : run pu pd initConfig s = some c) :
    c.flag = false := by
  have := reach_flag_executed hr
  rcases hfl : c.flag with _ | _
  · rfl
  · exact absurd (List.take_subset _ _ (this hfl)) hsf

/-- Reachability wrapper for the notify-pending invariant. -/
theorem reach_notify_pending {pu pd : List Instr} (hn : UpNotifyShape pu)
    {s : List Choice} {c : Config} (hr : run pu pd initConfig s = some c) :
    c.blocked = true → Instr.notifyOne ∈ pu.drop c.upPc ∨ c.flag = false :=
  run_inv (fun c => c.blocked = true → Instr.notifyOne ∈ pu.drop c.upPc ∨ c.flag = false)
    (fun _ _ _ hp h => notify_pending_step hn hp h) s initConfig c
    (fun hb => absurd hb (by simp [initConfig])) hr

/-- Reachability wrapper for executed up-worker `printLine`s. -/
theorem reach_up_printed {pu pd : List Instr}
    {s : List Choice} {c : Config} (hr : run pu pd initConfig s = some c) :
    ∀ i l, pu[i]? = some (Instr.printLine l) → i < c.upPc → (Tag.up, l) ∈ c.trace :=
  run_inv (fun c => ∀ i l, pu[i]? = some (Instr.printLine l) → i < c.upPc →
      (Tag.up, l) ∈ c.trace)
    (fun _ _ _ hp h => up_printed_step hp h) s initConfig c
    (fun _ _ _ hlt => absurd hlt (by simp [initConfig])) hr

/-- Reachability wrapper for executed down-worker `printLine`s. -/
theorem reach_down_printed {pu pd : List Instr}
    {s : List Choice} {c : Config} (hr : run pu pd initConfig s = some c) :
    ∀ i l, pd[i]? = some (Instr.printLine l) → i < c.downPc → (Tag.down, l) ∈ c.trace :=
  run_inv (fun c => ∀ i l, pd[i]? = some (Instr.printLine l) → i < c.downPc →
      (Tag.down, l) ∈ c.trace)
    (fun _ _ _ hp h => down_printed_step hp h) s initConfig c
    (fun _ _ _ hlt => absurd hlt (by simp [initConfig])) hr

/-- Reachability wrapper for an executed `emitU`. -/
theorem reach_up_emitted {pu pd : List Instr}
    {s : List Choice} {c : Config} (hr : run pu pd initConfig s = some c) :
    ∀ i, pu[i]? = some Instr.emitU → i < c.upPc →
      ∃ vs, (Tag.up, Line.upValues vs) ∈ c.trace :=
  run_inv (fun c => ∀ i, pu[i]? = some Instr.emitU → i < c.upPc →
      ∃ vs, (Tag.up, Line.upValues vs) ∈ c.trace)
    (fun _ _ _ hp h => up_emitted_step hp h) s initConfig c
    (fun _ _ hlt => absurd hlt (by simp [initConfig])) hr

/-- Reachability wrapper for an executed `emitD`. -/
theorem reach_down_emitted {pu pd : List Instr}
    {s : List Choice} {c : Config} (hr : run pu pd initConfig s = some c) :
    ∀ i, pd[i]? = some Instr.emitD → i < c.downPc →
      ∃ vs, (Tag.down, Line.downValues vs) ∈ c.trace :=
  run_inv (fun c => ∀ i, pd[i]? = some Instr.emitD → i < c.downPc →
      ∃ vs, (Tag.down, Line.downValues vs) ∈ c.trace)
    (fun _ _ _ hp h => down_emitted_step hp h) s initConfig c
    (fun _ _ hlt => absurd hlt (by simp [initConfig])) hr

/-- Reachability wrapper for the failure-free trace invariant. -/
theorem reach_trinv {s : List Choice} {c : Config}
    (hr : run countUpProg countDownProg initConfig s = some c) : TrInv c :=
  run_inv TrInv (fun _ _ _ ht h => trinv_step ht h) s initConfig c trinv_init hr

/-- Packaged stuck analysis for a system whose up body sets the flag and
then notifies. -/
theorem system_stuck_done {pu pd : List Instr} (hu : UpShape pu) (hd : DownShape pd)
    (hn : UpNotifyShape pu) (hsf : Instr.setFlag ∈ pu)
    (h1 : pu[0]? ≠ some Instr.setFlag) (h2 : pu[0]? ≠ some Instr.unlockS)
    (h3 : pd[0]? ≠ some Instr.checkGate) (h4 : pd[0]? ≠ some Instr.unlockS)
    {s : List Choice} {c : Config} (hr : run pu pd initConfig s = some c)
    (hs : StuckNS pu pd c) : Done pu pd c :=
  stuck_done hu hd (reach_inv hu hd h1 h2 h3 h4 hr) (reach_flag_pending hsf hr)
    (reach_notify_pending hn hr) hs

/-- Invariant step for a run whose up worker never sets the flag: the
flag stays down, the down worker never moves past its predicate check,
and the only down-worker output is its waiting log line. -/
theorem c7_step {pu : List Instr} (hsf : Instr.setFlag ∉ pu)
    {c : Config} {ch : Choice} {c' : Config}
    (hp : c.flag = false ∧ c.downPc ≤ 2 ∧
      ∀ l, (Tag.down, l) ∈ c.trace → l = Line.downWaiting)
    (h : step pu countDownProg c ch = some c') :
    c'.flag = false ∧ c'.downPc ≤ 2 ∧
      ∀ l, (Tag.down, l) ∈ c'.trace → l = Line.downWaiting := by
  obtain ⟨hfl, hd2, htr⟩ := hp
  rcases step_cases h with
      ⟨-, l, hf, rfl⟩ | ⟨-, hf, rfl⟩ | ⟨-, hf, hh, rfl⟩ | ⟨-, hf, rfl⟩ | ⟨-, hf, rfl⟩ |
      ⟨-, hf, rfl⟩ | ⟨-, hf, rfl⟩ | ⟨-, hbl, l, hf, rfl⟩ | ⟨-, hbl, hf, rfl⟩ |
      ⟨-, hbl, hf, hh, rfl⟩ | ⟨-, hbl, hf, rfl⟩ | ⟨-, hbl, hf, hfl2, rfl⟩ |
      ⟨-, hbl, hf, hfl2, rfl⟩ | ⟨-, hbl, hf, rfl⟩ | ⟨-, hbl, rfl⟩
  · refine ⟨hfl, hd2, fun l2 hm => ?_⟩
    rcases List.mem_append.mp hm with hm | hm
    · exact htr l2 hm
    · simp at hm
  · exact ⟨hfl, hd2, htr⟩
  · exact ⟨hfl, hd2, htr⟩
  · exact ⟨hfl, hd2, htr⟩
  · exact absurd (List.getElem?_mem hf) hsf
  · exact ⟨hfl, hd2, htr⟩
  · refine ⟨hfl, hd2, fun l2 hm => ?_⟩
    rcases List.mem_append.mp hm with hm | hm
    · exact htr l2 hm
    · simp at hm
  · rcases fetchD_cases hf with ⟨h0, heq⟩ | ⟨h0, heq⟩ | ⟨h0, heq⟩ | ⟨h0, heq⟩ |
        ⟨h0, heq⟩ | ⟨h0, heq⟩ | ⟨h0, heq⟩ <;> try exact Instr.noConfusion heq
    · obtain rfl := Instr.printLine.inj heq
      refine ⟨hfl, show c.downPc + 1 ≤ 2 by omega, fun l2 hm => ?_⟩
      rcases List.mem_append.mp hm with hm | hm
      · exact htr l2 hm
      · simp at hm
        exact hm
    · exact absurd h0 (by omega)
  · rcases fetchD_cases hf with ⟨h0, heq⟩ | ⟨h0, heq⟩ | ⟨h0, heq⟩ | ⟨h0, heq⟩ |
        ⟨h0, heq⟩ | ⟨h0, heq⟩ | ⟨h0, heq⟩ <;> try exact Instr.noConfusion heq
    exact absurd h0 (by omega)
  · rcases fetchD_cases hf with ⟨h0, heq⟩ | ⟨h0, heq⟩ | ⟨h0, heq⟩ | ⟨h0, heq⟩ |
        ⟨h0, heq⟩ | ⟨h0, heq⟩ | ⟨h0, heq⟩ <;> try exact Instr.noConfusion heq
    exact ⟨hfl, show c.downPc + 1 ≤ 2 by omega, htr⟩
  · rcases fetchD_cases hf with ⟨h0, heq⟩ | ⟨h0, heq⟩ | ⟨h0, heq⟩ | ⟨h0, heq⟩ |
        ⟨h0, heq⟩ | ⟨h0, heq⟩ | ⟨h0, heq⟩ <;> try exact Instr.noConfusion heq
    exact absurd h0 (by omega)
  · rw [hfl] at hfl2
    exact Bool.noConfusion hfl2
  · exact ⟨hfl, show c.downPc - 1 ≤ 2 by omega, htr⟩
  · rcases fetchD_cases hf with ⟨h0, heq⟩ | ⟨h0, heq⟩ | ⟨h0, heq⟩ | ⟨h0, heq⟩ |
        ⟨h0, heq⟩ | ⟨h0, heq⟩ | ⟨h0, heq⟩ <;> try exact Instr.noConfusion heq
    exact absurd h0 (by omega)
  · exact ⟨hfl, hd2, htr⟩

/-- Structural facts of the fail variants of `countUp`, uniform in the
fail point. -/
theorem upFail_shape : ∀ k, k ≤ 8 →
    UpShape (countUpProgFail k) ∧
    (countUpProgFail k)[0]? ≠ some Instr.setFlag ∧
    (countUpProgFail k)[0]? ≠ some Instr.unlockS ∧
    (countUpProgFail k)[(countUpProgFail k).length - 1]? =
      some (Instr.printLine Line.upFailed) ∧
    1 ≤ (countUpProgFail k).length ∧
    (countUpProgFail k).getLast? = some (Instr.printLine Line.upFailed) ∧
    Instr.setFlag ∉ (countUpProgFail k).drop k ∧
    (Instr.setFlag ∈ countUpProgFail k → Instr.setFlag ∈ countUpProg.take k) := by
  intro k hk
  interval_cases k <;> decide

/-- Structural facts of the fail variants of `countDown`, uniform in the
fail point. -/
theorem downFail_shape : ∀ j, j ≤ 7 →
    DownShape (countDownProgFail j) ∧
    (countDownProgFail j)[0]? ≠ some Instr.checkGate ∧
    (countDownProgFail j)[0]? ≠ some Instr.unlockS ∧
    (countDownProgFail j)[(countDownProgFail j).length - 1]? =
      some (Instr.printLine Line.downFailed) ∧
    1 ≤ (countDownProgFail j).length ∧
    (countDownProgFail j).getLast? = some (Instr.printLine Line.downFailed) ∧
    Instr.setFlag ∉ countDownProgFail j := by
  intro j hj
  interval_cases j <;> decide

/-- C1, counterexample.  The claim says no down-step output can precede
the up steps' output.  On the complete run scheduled by `schedUpFirst`
the batched DOWN output line sits at trace index 3, strictly before the
batched UP output line at index 5: the source sets the flag and notifies
(lines 96-101) before printing the UP line (line 112), so the down
worker's output can overtake it. -/
theorem spec_c1_counterexample :
    (run countUpProg countDownProg initConfig schedUpFirst).map Config.trace =
      some [(Tag.up, Line.startingUp), (Tag.down, Line.downWaiting),
        (Tag.down, Line.gateOpened), (Tag.down, Line.downValues countDownValues),
        (Tag.up, Line.upCompleted), (Tag.up, Line.upValues countUpValues)] ∧
    ((run countUpProg countDownProg initConfig schedUpFirst).map fun c =>
        (c.trace.findIdx isDownValuesLine, c.trace.findIdx isUpValuesLine,
          c.upPc, c.downPc)) = some (3, 5, 8, 7) ∧
    (3 : Nat) < 5 := by
  refine ⟨by decide, by decide, by decide⟩

/-- C1, amended: in every reachable configuration, the flag is set only
after the up worker's whole counting phase — the buffer-building loop
and the locked flag write — has completed (so the down phase still
strictly follows the up counting steps), and any down-phase progress or
DOWN output implies the flag was already set; but the up worker's own
output lines may be emitted after the down worker's, as the
counterexample shows. -/
theorem spec_c1_amended :
    ∀ (s : List Choice) (c : Config),
      run countUpProg countDownProg initConfig s = some c →
      (c.flag = true → 4 ≤ c.upPc ∧ c.upBuf = countUpValues) ∧
      (3 ≤ c.downPc → c.flag = true) ∧
      (∀ vs, (Tag.down, Line.downValues vs) ∈ c.trace → c.flag = true) := by
  intro s c hr
  obtain ⟨hU8, hD7, hUB, hDB, hCU, hCD2, hPU, hPD, hDF, hFU⟩ := reach_trinv hr
  refine ⟨fun hfl => ⟨hFU hfl, hUB (by have := hFU hfl; omega)⟩, hDF, ?_⟩
  intro vs hm
  have hpos : 0 < c.trace.countP isDownValuesLine :=
    List.countP_pos_iff.mpr ⟨_, hm, by simp [isDownValuesLine]⟩
  rw [hCD2] at hpos
  by_cases h7 : 7 ≤ c.downPc
  · exact hDF (by omega)
  · simp [h7] at hpos

theorem spec_c1_amended_witness :
    4 ≤ cUpFirst.upPc ∧ cUpFirst.upBuf = countUpValues :=
  (spec_c1_amended schedUpFirst cUpFirst (by decide)).1 rfl

/-- C2, counterexample.  The claim says a bound-20 run prints one line
per counting step (21 UP lines and 21 DOWN lines).  The complete run
scheduled by `schedDownFirst` prints exactly one batched UP values line,
one batched DOWN values line and six lines in total: the source builds
each phase's values into a stringstream and prints them with a single
output statement (lines 89-94/112 and 159-164/169). -/
theorem spec_c2_counterexample :
    ((run countUpProg countDownProg initConfig schedDownFirst).map fun c =>
        (c.trace.countP isUpValuesLine, c.trace.countP isDownValuesLine,
          c.trace.length, c.upPc, c.downPc)) = some (1, 1, 6, 8, 7) := by
  decide

/-- C2, amended: every completed run's output contains exactly one
batched UP values line and exactly one batched DOWN values line, each
carrying all 21 values of its phase — not one line per counting step. -/
theorem spec_c2_amended :
    ∀ (s : List Choice) (c : Config),
      run countUpProg countDownProg initConfig s = some c →
      Done countUpProg countDownProg c →
      c.trace.countP isUpValuesLine = 1 ∧ c.trace.countP isDownValuesLine = 1 ∧
      (∀ vs, (Tag.up, Line.upValues vs) ∈ c.trace → vs = countUpValues) ∧
      (∀ vs, (Tag.down, Line.downValues vs) ∈ c.trace → vs = countDownValues) ∧
      countUpValues.length = 21 ∧ countDownValues.length = 21 := by
  intro s c hr hdone
  obtain ⟨hU8, hD7, hUB, hDB, hCU, hCD2, hPU, hPD, hDF, hFU⟩ := reach_trinv hr
  obtain ⟨hu8, hd7⟩ := hdone
  have h8 : (8 : Nat) ≤ c.upPc := hu8
  have h7 : (7 : Nat) ≤ c.downPc := hd7
  refine ⟨?_, ?_, hPU, hPD, by decide, by decide⟩
  · rw [hCU]
    simp [h8]
  · rw [hCD2]
    simp [h7]

theorem spec_c2_amended_witness :
    cDownFirst.trace.countP isUpValuesLine = 1 ∧
    cDownFirst.trace.countP isDownValuesLine = 1 :=
  ⟨(spec_c2_amended schedDownFirst cDownFirst (by decide) (by decide)).1,
   (spec_c2_amended schedDownFirst cDownFirst (by decide) (by decide)).2.1⟩

/-- C3: the shared flag `up_complete_` starts false; the only step that
ever changes it is the up worker executing its `setFlag` instruction,
and the change is false→true (with the start value false this yields at
most one transition and never true→false); and in every reachable
configuration the pending flag write executes with the up worker holding
`state_mutex_` and the pending predicate read executes with the down
worker holding `state_mutex_`. -/
theorem spec_c3 :
    initConfig.flag = false ∧
    (∀ (c : Config) (ch : Choice) (c' : Config),
      step countUpProg countDownProg c ch = some c' →
      (c.flag = true → c'.flag = true) ∧
      (c'.flag ≠ c.flag → ch = Choice.up ∧
        countUpProg[c.upPc]? = some Instr.setFlag ∧ c'.flag = true)) ∧
    (∀ (s : List Choice) (c : Config),
      run countUpProg countDownProg initConfig s = some c →
      (countUpProg[c.upPc]? = some Instr.setFlag → c.holder = some Tag.up) ∧
      (countDownProg[c.downPc]? = some Instr.checkGate → c.holder = some Tag.down)) := by
  refine ⟨rfl, fun c ch c' h => flag_step h, fun s c hr => ?_⟩
  obtain ⟨hB, hHU, hHD, hUU, hUD, hSU, hCD⟩ :=
    reach_inv (by decide) (by decide) (by decide) (by decide) (by decide) (by decide) hr
  exact ⟨hSU, hCD⟩

theorem spec_c3_witness :
    cUpLocked.holder = some Tag.up ∧ cUpFlagged.flag = true :=
  ⟨(spec_c3.2.2 [Choice.up, Choice.up, Choice.up] cUpLocked (by decide)).1 (by decide),
   ((spec_c3.2.1 cUpLocked Choice.up cUpFlagged (by decide)).2 (by decide)).2.2⟩

/-- C4: the down worker's wait is predicate-based.  A wakeup (spurious
or not) only clears the sleep bit and leaves the worker at its
re-acquire/re-check; a predicate-check step advances past the wait only
when `up_complete_` is true; and a check in a state with the flag false
puts the worker back to sleep with the re-acquire and re-check still
ahead of it and emits no output. -/
theorem spec_c4 :
    (∀ c : Config, c.blocked = true →
      step countUpProg countDownProg c Choice.spur = some { c with blocked := false }) ∧
    (∀ c c' : Config, step countUpProg countDownProg c Choice.down = some c' →
      countDownProg[c.downPc]? = some Instr.checkGate →
      (c'.downPc = c.downPc + 1 → c.flag = true) ∧
      (c.flag = false → c'.blocked = true ∧ c'.downPc = c.downPc - 1 ∧
        countDownProg[c'.downPc]? = some Instr.lockS ∧
        countDownProg[c'.downPc + 1]? = some Instr.checkGate ∧ c'.trace = c.trace)) := by
  constructor
  · intro c hb
    simp [step, hb]
  · intro c c' h hf
    rcases step_cases h with
        ⟨heq, -⟩ | ⟨heq, -⟩ | ⟨heq, -⟩ | ⟨heq, -⟩ | ⟨heq, -⟩ | ⟨heq, -⟩ | ⟨heq, -⟩ |
        ⟨-, -, l, hfd, rfl⟩ | ⟨-, -, hfd, rfl⟩ | ⟨-, -, hfd, -, rfl⟩ | ⟨-, -, hfd, rfl⟩ |
        ⟨-, -, hfd, hfl, rfl⟩ | ⟨-, -, hfd, hfl, rfl⟩ | ⟨-, -, hfd, rfl⟩ | ⟨heq, -, -⟩
    · exact Choice.noConfusion heq
    · exact Choice.noConfusion heq
    · exact Choice.noConfusion heq
    · exact Choice.noConfusion heq
    · exact Choice.noConfusion heq
    · exact Choice.noConfusion heq
    · exact Choice.noConfusion heq
    · exact Instr.noConfusion (fetch_uniq hf hfd)
    · exact Instr.noConfusion (fetch_uniq hf hfd)
    · exact Instr.noConfusion (fetch_uniq hf hfd)
    · exact Instr.noConfusion (fetch_uniq hf hfd)
    · exact ⟨fun _ => hfl, fun hff => by rw [hff] at hfl; exact Bool.noConfusion hfl⟩
    · refine ⟨fun habs => absurd habs (show ¬(c.downPc - 1 = c.downPc + 1) by omega),
        fun _ => ⟨rfl, rfl, ?_, ?_, rfl⟩⟩
      · rcases fetchD_cases hf with ⟨h0, heq2⟩ | ⟨h0, heq2⟩ | ⟨h0, heq2⟩ | ⟨h0, heq2⟩ |
            ⟨h0, heq2⟩ | ⟨h0, heq2⟩ | ⟨h0, heq2⟩ <;> try exact Instr.noConfusion heq2
        show countDownProg[c.downPc - 1]? = some Instr.lockS
        rw [h0]
        decide
      · rcases fetchD_cases hf with ⟨h0, heq2⟩ | ⟨h0, heq2⟩ | ⟨h0, heq2⟩ | ⟨h0, heq2⟩ |
            ⟨h0, heq2⟩ | ⟨h0, heq2⟩ | ⟨h0, heq2⟩ <;> try exact Instr.noConfusion heq2
        show countDownProg[c.downPc - 1 + 1]? = some Instr.checkGate
        rw [h0]
        decide
    · exact Instr.noConfusion (fetch_uniq hf hfd)
    · exact Choice.noConfusion heq

theorem spec_c4_witness :
    step countUpProg countDownProg cBlocked Choice.spur =
      some { cBlocked with blocked := false } ∧
    cBlocked.blocked = true ∧ cBlocked.downPc = cAtGate.downPc - 1 ∧
    countDownProg[cBlocked.downPc]? = some Instr.lockS :=
  ⟨spec_c4.1 cBlocked rfl,
   by
    have h := (spec_c4.2 cAtGate cBlocked (by decide) (by decide)).2 rfl
    exact ⟨h.1, h.2.1, h.2.2.1⟩⟩

/-- C5: for every fail point in either worker, the worker body ends in
(exactly) the catch handler's error report; nothing at or after the fail
point — unwinding and handler included — writes the shared flag, so the
flag can only be true because the pre-failure prefix ran `setFlag`; and
whenever the system can make no further worker step, the failing worker
has returned (its whole body, handler included, has executed) and its
error line is in the output, so the failure neither escapes the worker
nor corrupts the coordination state.  For a failing down worker the up
worker also always runs to completion. -/
theorem spec_c5 :
    (∀ k, k ≤ 8 →
      (countUpProgFail k).getLast? = some (Instr.printLine Line.upFailed) ∧
      Instr.setFlag ∉ (countUpProgFail k).drop k ∧
      (∀ (s : List Choice) (c : Config),
        run (countUpProgFail k) countDownProg initConfig s = some c →
        (c.flag = true → Instr.setFlag ∈ countUpProg.take k) ∧
        (StuckNS (countUpProgFail k) countDownProg c →
          (countUpProgFail k).length ≤ c.upPc ∧ (Tag.up, Line.upFailed) ∈ c.trace))) ∧
    (∀ j, j ≤ 7 →
      (countDownProgFail j).getLast? = some (Instr.printLine Line.downFailed) ∧
      Instr.setFlag ∉ countDownProgFail j ∧
      (∀ (s : List Choice) (c : Config),
        run countUpProg (countDownProgFail j) initConfig s = some c →
        StuckNS countUpProg (countDownProgFail j) c →
          countUpProg.length ≤ c.upPc ∧ (countDownProgFail j).length ≤ c.downPc ∧
          (Tag.down, Line.downFailed) ∈ c.trace)) := by
  constructor
  · intro k hk
    obtain ⟨hshape, h01, h02, hfidx, hlen1, hlast, hdropk, himp⟩ := upFail_shape k hk
    refine ⟨hlast, hdropk, fun s c hr => ⟨?_, fun hs => ?_⟩⟩
    · intro hfl
      exact himp (List.take_subset _ _ (reach_flag_executed hr hfl))
    · have hinv := reach_inv hshape (by decide) h01 h02 (by decide) (by decide) hr
      have hle := List.getElem?_eq_none_iff.mp (stuck_up_done hshape hinv hs)
      exact ⟨hle, reach_up_printed hr _ _ hfidx (by omega)⟩
  · intro j hj
    obtain ⟨hshape, h01, h02, hfidx, hlen1, hlast, hnosf⟩ := downFail_shape j hj
    refine ⟨hlast, hnosf, fun s c hr hs => ?_⟩
    obtain ⟨hu, hd⟩ := system_stuck_done (by decide) hshape (by decide) (by decide)
      (by decide) (by decide) h01 h02 hr hs
    exact ⟨hu, hd, reach_down_printed hr _ _ hfidx (by omega)⟩

theorem spec_c5_witness :
    (countUpProgFail 0).length ≤ cUpFail0.upPc ∧
    (Tag.up, Line.upFailed) ∈ cUpFail0.trace :=
  ((spec_c5.1 0 (by decide)).2.2
      [Choice.up, Choice.down, Choice.down, Choice.down] cUpFail0 (by decide)).2
    (by decide)

/-- C6: with the embedded mutex and condition variable, every run of the
failure-free program that can no longer take a worker step has both
workers at `Done` — in particular the flag write under the mutex before
`notify_one` and the predicate evaluation under the same mutex rule out
a lost-wakeup deadlock — and every schedule without spurious wakeups
performs at most 33 steps, so the workers cannot run forever. -/
theorem spec_c6 :
    (∀ (s : List Choice) (c : Config),
      run countUpProg countDownProg initConfig s = some c →
      StuckNS countUpProg countDownProg c → Done countUpProg countDownProg c) ∧
    (∀ (s : List Choice) (c : Config), Choice.spur ∉ s →
      run countUpProg countDownProg initConfig s = some c → s.length ≤ 33) := by
  constructor
  · intro s c hr hs
    exact system_stuck_done (by decide) (by decide) (by decide) (by decide)
      (by decide) (by decide) (by decide) (by decide) hr hs
  · intro s c hns hr
    have h1 := run_nospur_length s initConfig c hns hr
    have h2 : stepMeasure countUpProg countDownProg initConfig = 33 := by decide
    omega

theorem spec_c6_witness : Done countUpProg countDownProg cUpFirst :=
  spec_c6.1 schedUpFirst cUpFirst (by decide) (by decide)

/-- C7: if the up worker fails before setting the flag (any fail point
before `setFlag`), then on every schedule the flag stays false forever,
the down worker never advances past its predicate check (there is no
timeout and no failure-propagation path in its wait), and no countdown
output is ever produced: the down worker blocks indefinitely. -/
theorem spec_c7 :
    ∀ k, k ≤ 3 → ∀ (s : List Choice) (c : Config),
      run (countUpProgFail k) countDownProg initConfig s = some c →
      c.flag = false ∧ c.downPc ≤ 2 ∧
      (∀ vs, (Tag.down, Line.downValues vs) ∉ c.trace) := by
  intro k hk s c hr
  have hsf : Instr.setFlag ∉ countUpProgFail k := by
    interval_cases k <;> decide
  have hp := run_inv (fun c => c.flag = false ∧ c.downPc ≤ 2 ∧
      ∀ l, (Tag.down, l) ∈ c.trace → l = Line.downWaiting)
    (fun _ _ _ hp h => c7_step hsf hp h) s initConfig c
    ⟨rfl, by simp [initConfig], fun l hm => absurd hm (by simp [initConfig])⟩ hr
  exact ⟨hp.1, hp.2.1, fun vs hm => Line.noConfusion (hp.2.2 _ hm)⟩

theorem spec_c7_witness :
    cUpFail1.flag = false ∧ cUpFail1.downPc ≤ 2 := by
  have h := spec_c7 1 (by decide)
    [Choice.up, Choice.up, Choice.down, Choice.down, Choice.down] cUpFail1 (by decide)
  exact ⟨h.1, h.2.1⟩

/-- C8: the value sequence the up worker's loop emits into its buffer is
exactly 0..20 in increasing order, the down worker's is exactly 20..0 in
decreasing order, every UP/DOWN values line in any reachable trace
carries exactly that sequence, and every completed run has actually
emitted both lines. -/
theorem spec_c8 :
    countUpValues = [0, 1, 2, 3, 4, 5, 6, 7, 8, 9, 10, 11, 12, 13, 14, 15,
      16, 17, 18, 19, 20] ∧
    List.Pairwise (fun a b => a < b) countUpValues ∧
    countDownValues = [20, 19, 18, 17, 16, 15, 14, 13, 12, 11, 10, 9, 8, 7,
      6, 5, 4, 3, 2, 1, 0] ∧
    List.Pairwise (fun a b => b < a) countDownValues ∧
    (∀ (s : List Choice) (c : Config),
      run countUpProg countDownProg initConfig s = some c →
      (∀ vs, (Tag.up, Line.upValues vs) ∈ c.trace → vs = countUpValues) ∧
      (∀ vs, (Tag.down, Line.downValues vs) ∈ c.trace → vs = countDownValues) ∧
      (Done countUpProg countDownProg c →
        (Tag.up, Line.upValues countUpValues) ∈ c.trace ∧
        (Tag.down, Line.downValues countDownValues) ∈ c.trace)) := by
  refine ⟨by decide, by decide, by decide, by decide, fun s c hr => ?_⟩
  obtain ⟨hU8, hD7, hUB, hDB, hCU, hCD2, hPU, hPD, hDF, hFU⟩ := reach_trinv hr
  refine ⟨hPU, hPD, fun hdone => ?_⟩
  obtain ⟨hu8, hd7⟩ := hdone
  have h8 : (8 : Nat) ≤ c.upPc := hu8
  have h7 : (7 : Nat) ≤ c.downPc := hd7
  constructor
  · obtain ⟨vs, hm⟩ := reach_up_emitted hr 7 (by decide) (by omega)
    exact (hPU vs hm) ▸ hm
  · obtain ⟨vs, hm⟩ := reach_down_emitted hr 6 (by decide) (by omega)
    exact (hPD vs hm) ▸ hm

theorem spec_c8_witness :
    (Tag.up, Line.upValues countUpValues) ∈ cDownFirst.trace ∧
    (Tag.down, Line.downValues countDownValues) ∈ cDownFirst.trace :=
  (spec_c8.2.2.2.2 schedDownFirst cDownFirst (by decide)).2.2 (by decide)

/-- C9: in every reachable configuration, a worker holding
`state_mutex_` is exactly at its flag write, predicate check, or the
matching release — never at an output instruction: locks are held only
for the minimal flag critical sections, and all output (`printLine`,
`emitU`, `emitD`) happens without the state mutex. -/
theorem spec_c9 :
    ∀ (s : List Choice) (c : Config),
      run countUpProg countDownProg initConfig s = some c →
      (c.holder = some Tag.up → countUpProg[c.upPc]? = some Instr.setFlag ∨
        countUpProg[c.upPc]? = some Instr.unlockS) ∧
      (c.holder = some Tag.down → countDownProg[c.downPc]? = some Instr.checkGate ∨
        countDownProg[c.downPc]? = some Instr.unlockS) ∧
      (∀ i, countUpProg[c.upPc]? = some i → isOutputInstr i = true →
        c.holder ≠ some Tag.up) ∧
      (∀ i, countDownProg[c.downPc]? = some i → isOutputInstr i = true →
        c.holder ≠ some Tag.down) := by
  intro s c hr
  obtain ⟨hB, hHU, hHD, hUU, hUD, hSU, hCD⟩ :=
    reach_inv (by decide) (by decide) (by decide) (by decide) (by decide) (by decide) hr
  refine ⟨hHU, hHD, fun i hfi hout hh => ?_, fun i hfi hout hh => ?_⟩
  · rcases hHU hh with h2 | h2 <;> rw [fetch_uniq hfi h2] at hout <;>
      simp [isOutputInstr] at hout
  · rcases hHD hh with h2 | h2 <;> rw [fetch_uniq hfi h2] at hout <;>
      simp [isOutputInstr] at hout

theorem spec_c9_witness :
    countUpProg[cUpLocked.upPc]? = some Instr.setFlag ∨
    countUpProg[cUpLocked.upPc]? = some Instr.unlockS :=
  (spec_c9 [Choice.up, Choice.up, Choice.up] cUpLocked (by decide)).1 (by decide)

/-- C10: for every fail point of `countUp` after its `notify_one` —
which in the source covers every failure after the flag write, since
only `noexcept` operations sit between the flag write and the notify —
the executed prefix contains the flag write, no step ever lowers the
flag once it is up, and whenever no worker step remains both workers
have returned with the flag still set and the DOWN output emitted: a
late failure of the up worker leaves the down worker entirely
unaffected. -/
theorem spec_c10 :
    ∀ k, 6 ≤ k → k ≤ 8 →
      Instr.setFlag ∈ countUpProg.take k ∧
      (∀ (c : Config) (ch : Choice) (c' : Config),
        step (countUpProgFail k) countDownProg c ch = some c' →
        c.flag = true → c'.flag = true) ∧
      (∀ (s : List Choice) (c : Config),
        run (countUpProgFail k) countDownProg initConfig s = some c →
        StuckNS (countUpProgFail k) countDownProg c →
        Done (countUpProgFail k) countDownProg c ∧ c.flag = true ∧
        ∃ vs, (Tag.down, Line.downValues vs) ∈ c.trace) := by
  intro k h6 h8
  have hfacts : UpShape (countUpProgFail k) ∧ UpNotifyShape (countUpProgFail k) ∧
      Instr.setFlag ∈ countUpProgFail k ∧ Instr.setFlag ∈ countUpProg.take k ∧
      (countUpProgFail k)[0]? ≠ some Instr.setFlag ∧
      (countUpProgFail k)[0]? ≠ some Instr.unlockS := by
    interval_cases k <;> decide
  obtain ⟨hshape, hn, hsf, hsftake, h01, h02⟩ := hfacts
  refine ⟨hsftake, fun c ch c' h hfl => (flag_step h).1 hfl, fun s c hr hs => ?_⟩
  obtain ⟨hu, hd⟩ := system_stuck_done hshape (by decide) hn hsf h01 h02
    (by decide) (by decide) hr hs
  have hfl : c.flag = true := by
    rcases reach_flag_pending hsf hr with hp | hp
    · rw [List.drop_eq_nil_of_le hu] at hp
      exact absurd hp (List.not_mem_nil _)
    · exact hp
  have hd7 : (7 : Nat) ≤ c.downPc := hd
  exact ⟨⟨hu, hd⟩, hfl, reach_down_emitted hr 6 (by decide) (by omega)⟩

theorem spec_c10_witness :
    Done (countUpProgFail 6) countDownProg cUpFail6 ∧ cUpFail6.flag = true ∧
    ∃ vs, (Tag.down, Line.downValues vs) ∈ cUpFail6.trace :=
  (spec_c10 6 (by decide) (by decide)).2.2
    [Choice.up, Choice.up, Choice.up, Choice.up, Choice.up, Choice.up, Choice.up,
     Choice.down, Choice.down, Choice.down, Choice.down, Choice.down, Choice.down,
     Choice.down]
    cUpFail6 (by decide) (by decide)

end PortfolioMod7
